import Mathlib

/-!
# saTherapist `parseflagstat`: a shallow embedding of `parse.go`

The development follows `src/saTherapist/parse.go`:

* text is a `List Char`; a Go `int` / `int64` is an `Int` reduced into the
  64-bit two's-complement range by `wrapInt` after every arithmetic step;
* a `float64` is an `F64`: not-a-number, a signed infinity, or a signed
  dyadic number `m * 2^e` in the canonical binary64 layout, with
  round-to-nearest-even done in exact integer arithmetic;
* the sixteen regular expressions are token lists; every one of them starts
  with `^`, so a match always starts at the first character;
* `errorutils.ExitOnFail` ends the process when its error is non-nil, which is
  the outcome `Outcome.exited`; `errorutils.WarnOnFail` records a warning;
* `goto switchTry2` is a recursive call that spends one unit of fuel;
* `json.Marshal` encodes the exported fields of the struct in their order, under the keys
  of their tags, and fails on a `float64` that is not finite; how the library writes a
  string and a finite `float64` is left open (`encString`, `encFloat`).
-/

namespace SaTherapist

/-! ## Text -/

/-- Text of the program: a sequence of characters. -/
abbrev Str := List Char

/-- Regular-expression class `\d` of Go (RE2): the ASCII digits only. -/
def isDigit (c : Char) : Bool := decide ('0'.toNat ≤ c.toNat) && decide (c.toNat ≤ '9'.toNat)

/-- Numeric value of a digit character. -/
def digitVal (c : Char) : Nat := c.toNat - '0'.toNat

/-- Value of a run of decimal digits, most significant digit first. -/
def decVal (ds : Str) : Nat := ds.foldl (fun n c => n * 10 + digitVal c) 0

/-- The character of a decimal digit `d < 10`. -/
def digitChar (d : Nat) : Char := Char.ofNat ('0'.toNat + d)

/-- Decimal digits of `n`, least significant first; `fuel` bounds the number of digits. -/
def decDigitsRev : Nat → Nat → Str
  | 0, _ => []
  | fuel + 1, n => if n < 10 then [digitChar n] else digitChar (n % 10) :: decDigitsRev fuel (n / 10)

/-- Decimal rendering of a natural number (`%d` on a non-negative value). -/
def fmtNat (n : Nat) : Str := (decDigitsRev (n + 1) n).reverse

/-- Decimal rendering of an integer (`%d`). -/
def fmtInt (i : Int) : Str := if i < 0 then '-' :: fmtNat i.natAbs else fmtNat i.natAbs

/-- `unicode.IsSpace`: the characters that `strings.TrimSpace` removes. -/
def isSpace (c : Char) : Bool :=
  let n := c.toNat
  n == 0x20 || (decide (0x09 ≤ n) && decide (n ≤ 0x0D)) || n == 0x85 || n == 0xA0 || n == 0x1680 ||
  (decide (0x2000 ≤ n) && decide (n ≤ 0x200A)) || n == 0x2028 || n == 0x2029 || n == 0x202F ||
  n == 0x205F || n == 0x3000

/-- Removal of trailing white space. -/
def trimRight (s : Str) : Str := (s.reverse.dropWhile isSpace).reverse

/-- `strings.TrimSpace`: leading and trailing white space removed. -/
def TrimSpace (s : Str) : Str := trimRight (s.dropWhile isSpace)

/-! ## Machine integers -/

/-- Largest value of a Go `int` (64-bit platforms). -/
def maxInt : Int := 2 ^ 63 - 1

/-- Smallest value of a Go `int` (64-bit platforms). -/
def minInt : Int := -(2 ^ 63)

/-- Reduction of an integer into the two's-complement range of a Go `int`. -/
def wrapInt (x : Int) : Int := (x + 2 ^ 63) % 2 ^ 64 - 2 ^ 63

/-- Go `+` on `int`. -/
def intAdd (x y : Int) : Int := wrapInt (x + y)

/-- Go `-` on `int`. -/
def intSub (x y : Int) : Int := wrapInt (x - y)

deriving instance DecidableEq for Except

/-- Errors of `strconv.Atoi` / `strconv.ParseFloat`. -/
inductive NumError
  | syntaxErr
  | rangeErr
  deriving DecidableEq, Repr

/-- The digits of `strconv.Atoi` once the sign is read: at least one digit, nothing else, and
the signed value must fit an `int`. -/
def atoiBody (neg : Bool) (body : Str) : Except NumError Int :=
  if body.isEmpty || !body.all isDigit then .error .syntaxErr
  else
    let v : Int := if neg then -(decVal body : Int) else (decVal body : Int)
    if v < minInt || maxInt < v then .error .rangeErr else .ok v

/-- `strconv.Atoi`: an optional sign, then the digits. -/
def Atoi (s : Str) : Except NumError Int :=
  match s with
  | '-' :: t => atoiBody true t
  | '+' :: t => atoiBody false t
  | t => atoiBody false t

/-! ## Binary64 -/

/-- Values of a Go `float64`: `fin neg m e` is `(-1)^neg * m * 2^e`, kept canonical
(`2^52 ≤ m < 2^53` with `-1074 ≤ e ≤ 971`, or `m < 2^52` with `e = -1074`). -/
inductive F64
  | nan
  | inf (neg : Bool)
  | fin (neg : Bool) (m : Nat) (e : Int)
  deriving DecidableEq, Repr

/-- Quotient `N / D` rounded to the nearest natural number, ties to even. -/
def roundHalfEven (N D : Nat) : Nat :=
  let q := N / D
  let r := N % D
  if 2 * r > D || (2 * r == D && q % 2 == 1) then q + 1 else q

/-- Binary logarithm rounded down, by repeated halving; `fuel` bounds the number of halvings. -/
def log2Fuel : Nat → Nat → Nat
  | 0, _ => 0
  | fuel + 1, n => if n < 2 then 0 else log2Fuel fuel (n / 2) + 1

/-- Binary logarithm of a natural number, rounded down. -/
def log2 (n : Nat) : Nat := log2Fuel n n

/-- Largest `k` with `2^k ≤ num / den` (for `num, den > 0`). -/
def floorLog2 (num den : Nat) : Int :=
  let k : Int := (log2 num : Int) - (log2 den : Int)
  let below : Bool := if 0 ≤ k then decide (num < den * 2 ^ k.toNat) else decide (num * 2 ^ (-k).toNat < den)
  if below then k - 1 else k

/-- The binary64 nearest to `(-1)^neg * num / den` (ties to even); overflow gives an infinity. -/
def roundQ (neg : Bool) (num den : Nat) : F64 :=
  if num == 0 || den == 0 then .fin neg 0 (-1074)
  else
    let e : Int := max (floorLog2 num den - 52) (-1074)
    let m : Nat := if 0 ≤ e then roundHalfEven num (den * 2 ^ e.toNat) else roundHalfEven (num * 2 ^ (-e).toNat) den
    let (m, e) := if m == 2 ^ 53 then (2 ^ 52, e + 1) else (m, e)
    if 971 < e then .inf neg else .fin neg m e

/-- Conversion `float64(i)` of an integer. -/
def F64.ofInt (i : Int) : F64 := roundQ (decide (i < 0)) i.natAbs 1

/-- Neither an infinity nor not-a-number. -/
def F64.isFinite : F64 → Bool
  | .fin _ _ _ => true
  | _ => false

/-- Zero value of a `float64` field. -/
def F64.zero : F64 := .fin false 0 (-1074)

/-- Numerator and denominator of the magnitude `m * 2^e`. -/
def dyadic (m : Nat) (e : Int) : Nat × Nat :=
  if 0 ≤ e then (m * 2 ^ e.toNat, 1) else (m, 2 ^ (-e).toNat)

/-- IEEE 754 division on `float64`. -/
def F64.div : F64 → F64 → F64
  | .nan, _ => .nan
  | _, .nan => .nan
  | .inf _, .inf _ => .nan
  | .inf s, .fin t _ _ => .inf (s != t)
  | .fin s _ _, .inf t => .fin (s != t) 0 (-1074)
  | .fin s m e, .fin t n k =>
    if n == 0 then (if m == 0 then .nan else .inf (s != t))
    else
      let (a, b) := dyadic m e
      let (c, d) := dyadic n k
      roundQ (s != t) (a * d) (b * c)

/-- IEEE 754 multiplication on `float64`. -/
def F64.mul : F64 → F64 → F64
  | .nan, _ => .nan
  | _, .nan => .nan
  | .inf s, .inf t => .inf (s != t)
  | .inf s, .fin t n _ => if n == 0 then .nan else .inf (s != t)
  | .fin s m _, .inf t => if m == 0 then .nan else .inf (s != t)
  | .fin s m e, .fin t n k =>
    let (a, b) := dyadic m e
    let (c, d) := dyadic n k
    roundQ (s != t) (a * c) (b * d)

/-- `strconv.ParseFloat(s, 64)` on a capture `\d+\.\d+`: the nearest binary64, and a range
error when that is an infinity. -/
def ParseFloat (s : Str) : Except NumError F64 :=
  let ip := s.takeWhile isDigit
  match s.dropWhile isDigit with
  | '.' :: fp =>
    if ip.isEmpty || fp.isEmpty || !fp.all isDigit then .error .syntaxErr
    else
      match roundQ false (decVal (ip ++ fp)) (10 ^ fp.length) with
      | .inf _ => .error .rangeErr
      | v => .ok v
  | _ => .error .syntaxErr

/-- Two-digit rendering of `n < 100`. -/
def fmt2 (n : Nat) : Str := [digitChar (n / 10), digitChar (n % 10)]

/-- Verb `%.2f` of `fmt`. -/
def fmtF2 : F64 → Str
  | .nan => "NaN".toList
  | .inf false => "+Inf".toList
  | .inf true => "-Inf".toList
  | .fin neg m e =>
    let (a, b) := dyadic m e
    let n := roundHalfEven (a * 100) b
    (if neg then ['-'] else []) ++ fmtNat (n / 100) ++ '.' :: fmt2 (n % 100)

/-! ## The pattern table -/

/-- Pieces of the regular expressions of the pattern table. -/
inductive Tok
  /-- Capture group `(\d+)`. -/
  | num
  /-- Capture group `(\d+\.\d+)`. -/
  | pct
  /-- Literal text (escapes resolved: `\+` is `+`, `\(` is `(`, `\)` is `)`). -/
  | lit (cs : Str)
  /-- End of text `$`. -/
  | eot
  deriving DecidableEq, Repr

/-- A compiled regular expression of the table: the tokens that follow its leading `^`. -/
abbrev Regexp := List Tok

/-- Match of a token list at the start of `s`: the captured groups and the unmatched rest.
A digit run is taken as long as possible; in every pattern of the table a digit run is
followed by a character that is not a digit, so no shorter run can lead to a match. -/
def matchToks : List Tok → Str → Option (List Str × Str)
  | [], s => some ([], s)
  | .num :: ts, s =>
    let d := s.takeWhile isDigit
    if d.isEmpty then none
    else (matchToks ts (s.dropWhile isDigit)).map (fun r => (d :: r.1, r.2))
  | .pct :: ts, s =>
    let ip := s.takeWhile isDigit
    match s.dropWhile isDigit with
    | '.' :: r =>
      let fp := r.takeWhile isDigit
      if ip.isEmpty || fp.isEmpty then none
      else (matchToks ts (r.dropWhile isDigit)).map (fun x => ((ip ++ '.' :: fp) :: x.1, x.2))
    | _ => none
  | .lit cs :: ts, s => if cs.isPrefixOf s then matchToks ts (s.drop cs.length) else none
  | .eot :: ts, s => if s.isEmpty then matchToks ts s else none

/-- `(*Regexp).MatchString`. -/
def MatchString (re : Regexp) (s : Str) : Bool := (matchToks re s).isSome

/-- `(*Regexp).FindStringSubmatch`: the whole match at index 0, then the capture groups;
`none` is Go's `nil`. -/
def FindStringSubmatch (re : Regexp) (s : Str) : Option (List Str) :=
  (matchToks re s).map (fun r => s.take (s.length - r.2.length) :: r.1)

/-- Keys of the `patterns` map. -/
inductive Category
  | total | primary | secondary | supplementary | duplicates | primaryDup | mapped
  | primaryMapped | pairedInSeq | read1 | read2 | properlyPaired | withMateMapped
  | singletons | mateDiffChr | mateDiffChrMapQ5
  deriving DecidableEq, Repr

/-- Common head `^(\d+) \+ (\d+)` of all sixteen patterns. -/
def countsHead : List Tok := [.num, .lit " + ".toList, .num]

/-- The `patterns` map of `scanFlagstat`. -/
def patterns : Category → Regexp
  | .total => countsHead ++ [.lit " in total".toList]
  | .primary => countsHead ++ [.lit " primary".toList, .eot]
  | .secondary => countsHead ++ [.lit " secondary".toList]
  | .supplementary => countsHead ++ [.lit " supplementary".toList]
  | .duplicates => countsHead ++ [.lit " duplicates".toList]
  | .primaryDup => countsHead ++ [.lit " primary duplicates".toList]
  | .mapped => countsHead ++ [.lit " mapped (".toList, .pct, .lit "%".toList]
  | .primaryMapped => countsHead ++ [.lit " primary mapped (".toList, .pct, .lit "%".toList]
  | .pairedInSeq => countsHead ++ [.lit " paired in sequencing".toList]
  | .read1 => countsHead ++ [.lit " read1".toList]
  | .read2 => countsHead ++ [.lit " read2".toList]
  | .properlyPaired => countsHead ++ [.lit " properly paired (".toList, .pct, .lit "%".toList]
  | .withMateMapped => countsHead ++ [.lit " with itself and mate mapped".toList]
  | .singletons => countsHead ++ [.lit " singletons (".toList, .pct, .lit "%".toList]
  | .mateDiffChr => countsHead ++ [.lit " with mate mapped to a different chr".toList, .eot]
  | .mateDiffChrMapQ5 =>
    countsHead ++ [.lit " with mate mapped to a different chr (mapQ>=5)".toList]

/-- The cases of the `switch` in the order in which they are tried. -/
def caseOrder : List Category :=
  [.total, .primary, .secondary, .supplementary, .duplicates, .primaryDup, .mapped,
   .primaryMapped, .pairedInSeq, .read1, .read2, .properlyPaired, .withMateMapped,
   .singletons, .mateDiffChr, .mateDiffChrMapQ5]

/-! ## `parseFlagstatLine` -/

/-- The errors that `parseFlagstatLine` builds with `fmt.Errorf`. -/
inductive LineError
  | noMatch (line : Str)
  | firstInt (e : NumError)
  | secondInt (e : NumError)
  | percent (e : NumError)
  deriving DecidableEq, Repr

/-- Function `parseFlagstatLine`: the `[2]int`, the percentage and the error (`none` is `nil`). -/
def parseFlagstatLine (line : Str) (pattern : Regexp) : (Int × Int) × F64 × Option LineError :=
  match FindStringSubmatch pattern line with
  | none => ((0, 0), F64.zero, some (.noMatch line))
  | some ms =>
    match Atoi (ms.getD 1 []) with
    | .error e => ((0, 0), F64.zero, some (.firstInt e))
    | .ok v0 =>
      match Atoi (ms.getD 2 []) with
      | .error e => ((0, 0), F64.zero, some (.secondInt e))
      | .ok v1 =>
        if decide (ms.length > 3) && ms.getD 3 [] != [] then
          match ParseFloat (ms.getD 3 []) with
          | .error e => ((0, 0), F64.zero, some (.percent e))
          | .ok p => ((v0, v1), p, none)
        else ((v0, v1), F64.zero, none)

/-! ## The record -/

/-- The struct `Flagstat`. -/
structure Flagstat where
  Input : Str := []
  Output : Str := []
  FastqReadCount : Int := 0
  Total : Int × Int := (0, 0)
  Primary : Int × Int := (0, 0)
  Secondary : Int × Int := (0, 0)
  Supplementary : Int × Int := (0, 0)
  Duplicates : Int × Int := (0, 0)
  PrimaryDuplicates : Int × Int := (0, 0)
  Mapped : Int × Int := (0, 0)
  MappedPercent : F64 := F64.zero
  PrimaryMapped : Int × Int := (0, 0)
  PrimaryMappedPercent : F64 := F64.zero
  PairedInSeq : Int × Int := (0, 0)
  Read1 : Int × Int := (0, 0)
  Read2 : Int × Int := (0, 0)
  ProperlyPaired : Int × Int := (0, 0)
  ProperlyPairedPercent : F64 := F64.zero
  pppmp : F64 := F64.zero
  WithMateMapped : Int × Int := (0, 0)
  Singletons : Int × Int := (0, 0)
  SingletonsPercent : F64 := F64.zero
  MateDiffChr : Int × Int := (0, 0)
  MateDiffChrMapQ5 : Int × Int := (0, 0)
  deriving DecidableEq, Repr

/-- The assignment of one `case` of the switch: the counts (and, for the four categories
that carry one, the percentage) returned by `parseFlagstatLine` are stored. -/
def assign (c : Category) (f : Flagstat) (v : Int × Int) (p : F64) : Flagstat :=
  match c with
  | .total => { f with Total := v }
  | .primary => { f with Primary := v }
  | .secondary => { f with Secondary := v }
  | .supplementary => { f with Supplementary := v }
  | .duplicates => { f with Duplicates := v }
  | .primaryDup => { f with PrimaryDuplicates := v }
  | .mapped => { f with Mapped := v, MappedPercent := p }
  | .primaryMapped => { f with PrimaryMapped := v, PrimaryMappedPercent := p }
  | .pairedInSeq => { f with PairedInSeq := v }
  | .read1 => { f with Read1 := v }
  | .read2 => { f with Read2 := v }
  | .properlyPaired => { f with ProperlyPaired := v, ProperlyPairedPercent := p }
  | .withMateMapped => { f with WithMateMapped := v }
  | .singletons => { f with Singletons := v, SingletonsPercent := p }
  | .mateDiffChr => { f with MateDiffChr := v }
  | .mateDiffChrMapQ5 => { f with MateDiffChrMapQ5 := v }

/-! ## `scanFlagstat` -/

/-- Errors that a `bufio.Scanner` reports through `Err()`. -/
inductive ScanError
  | tooLong
  | io (msg : Str)
  deriving DecidableEq, Repr

/-- What `scanFlagstat` observes of its `*bufio.Scanner`: for every call of `Scan()` that
returns true the token and the value of `Err()` right after it, and the value of `Err()`
once `Scan()` has returned false. -/
structure Scanner where
  tokens : List (Str × Option ScanError)
  finalErr : Option ScanError
  deriving DecidableEq, Repr

/-- Why the process was ended by `errorutils.ExitOnFail`. -/
inductive ExitReason
  | sentinel (e : LineError)
  | scanner (e : ScanError) (line : Str)
  | marshal (field : Str)
  deriving DecidableEq, Repr

/-- Results of a run of `scanFlagstat`; `warnings` are the lines handed to
`errorutils.WarnOnFail`, oldest first. -/
inductive Outcome
  | returned (f : Flagstat) (err : Option ScanError) (warnings : List Str)
  | exited (reason : ExitReason) (warnings : List Str)
  | outOfFuel
  deriving DecidableEq, Repr

/-- The first case of the switch whose pattern matches the line. -/
def firstCase (line : Str) : Option Category :=
  caseOrder.find? (fun c => MatchString (patterns c) line)

/-- The labelled `switch` of the loop body. A matching case stores what `parseFlagstatLine`
returns and hands back the error as `sentinel`; the `default` case warns and jumps back to
the label, which costs one unit of fuel. -/
def switchTry2 : Nat → Flagstat → Str → List Str → Option (Flagstat × Option LineError × List Str)
  | 0, _, _, _ => none
  | fuel + 1, f, line, ws =>
    match firstCase line with
    | some c =>
      let r := parseFlagstatLine line (patterns c)
      some (assign c f r.1 r.2.1, r.2.2, ws)
    | none => switchTry2 fuel f line (ws ++ [line])

/-- Value stored in `pppmp` at the end of the loop body. -/
def pppmpOf (f : Flagstat) : F64 :=
  F64.mul (F64.div (F64.ofInt f.ProperlyPaired.1) (F64.ofInt f.PrimaryMapped.1)) (F64.ofInt 100)

/-- How one pass through the loop body ends: the loop goes on with the next token, or the
run is over. -/
inductive Step
  | next (f : Flagstat) (warnings : List Str)
  | stop (o : Outcome)
  deriving DecidableEq, Repr

/-- One pass through the body of the `for scanner.Scan()` loop, for the token `tok.1` after
which `scanner.Err()` reports `tok.2`. -/
def loopBody (fuel : Nat) (tok : Str × Option ScanError) (f : Flagstat) (ws : List Str) : Step :=
  let line := TrimSpace tok.1
  let f := { f with Input := f.Input ++ (line ++ ['\n']) }
  match switchTry2 fuel f line ws with
  | none => .stop .outOfFuel
  | some (_, some e, ws) => .stop (.exited (.sentinel e) ws)
  | some (f, none, ws) =>
    match tok.2 with
    | some e => .stop (.exited (.scanner e line) ws)
    | none => .next { f with pppmp := pppmpOf f } ws

/-- The `for scanner.Scan()` loop over the tokens that are still to come; when `Scan()`
returns false the function returns the record and a nil error. -/
def scanLoop (fuel : Nat) : List (Str × Option ScanError) → Flagstat → List Str → Outcome
  | [], f, ws => .returned f none ws
  | tok :: rest, f, ws =>
    match loopBody fuel tok f ws with
    | .stop o => o
    | .next f ws => scanLoop fuel rest f ws

/-- Function `scanFlagstat`; `fuel` bounds the number of jumps to `switchTry2` per line. -/
def scanFlagstat (fuel : Nat) (scanner : Scanner) : Outcome :=
  scanLoop fuel scanner.tokens {} []

/-! ## The text report -/

/-- Method `generateReport`. -/
def generateReport (f : Flagstat) : Flagstat :=
  let result := "Report\n".toList
  let result :=
    if f.FastqReadCount > 0 then
      let tp := intAdd f.Primary.1 f.Primary.2
      if tp != f.FastqReadCount then
        result ++ ("Read count mismatch between user provided fastq read count and flagstat: ".toList
          ++ fmtInt f.FastqReadCount ++ " != ".toList ++ fmtInt tp ++ ". ".toList)
      else result ++ "all reads accounted for. ".toList
    else result
  let result := result ++ ("QC fail fraction: ".toList
    ++ fmtF2 (F64.mul (F64.div (F64.ofInt f.Total.2) (F64.ofInt f.Total.1)) (F64.ofInt 100))
    ++ "%. Only passing used for counts in this report.\n".toList)
  let result := result ++ (fmtF2 f.PrimaryMappedPercent ++ "% reads (".toList
    ++ fmtInt f.PrimaryMapped.1 ++ ") are primarily mapped of which ".toList ++ fmtF2 f.pppmp
    ++ "% (".toList ++ fmtInt f.ProperlyPaired.1
    ++ ") are aligned and spaced as expected;. ".toList
    ++ fmtInt (intAdd f.Secondary.1 f.Secondary.2)
    ++ " additional secondary alignments have been recorded.\n".toList)
  let ur := intSub (intSub (intAdd f.PairedInSeq.1 f.PairedInSeq.2) f.PrimaryMapped.1) f.PrimaryMapped.2
  let result := result ++ (fmtInt ur ++ " unmapped include ".toList ++ fmtInt f.Singletons.1
    ++ " singletons\n".toList)
  let prc_HQsnv := F64.mul (F64.div (F64.ofInt f.MateDiffChrMapQ5.1) (F64.ofInt f.MateDiffChr.1)) (F64.ofInt 100)
  let result := result ++ ("Structural variation evidence in ".toList ++ fmtInt f.MateDiffChr.1
    ++ " reads where mates mapped to a different chr of which ".toList ++ fmtF2 prc_HQsnv
    ++ "% (".toList ++ fmtInt f.MateDiffChrMapQ5.1 ++ ") are high quality mappings. ".toList
    ++ fmtInt f.Supplementary.1 ++ " Supplementary mappings could also indicate SV\n".toList)
  { f with Output := result }

/-! ## The structured output -/

/-- The values that `json.Marshal` meets in a `Flagstat`: a string, an `int64`, a `float64`
and a `[2]int`. -/
inductive JValue
  | str (s : Str)
  | int (i : Int)
  | float (x : F64)
  | pair (v : Int × Int)
  deriving DecidableEq, Repr

/-- What `json.Marshal` encodes of a `Flagstat`: the exported fields in the order of their
declaration, each under the key of its `json` tag. The field `pppmp` is not exported (its
name starts with a lower-case letter), so the encoder skips it, tag or no tag. -/
def marshalFields (f : Flagstat) : List (Str × JValue) :=
  [("input".toList, .str f.Input),
   ("output".toList, .str f.Output),
   ("fastq_read_count".toList, .int f.FastqReadCount),
   ("total".toList, .pair f.Total),
   ("primary".toList, .pair f.Primary),
   ("secondary".toList, .pair f.Secondary),
   ("supplementary".toList, .pair f.Supplementary),
   ("duplicates".toList, .pair f.Duplicates),
   ("primary_duplicates".toList, .pair f.PrimaryDuplicates),
   ("mapped".toList, .pair f.Mapped),
   ("mapped_percent".toList, .float f.MappedPercent),
   ("primary_mapped".toList, .pair f.PrimaryMapped),
   ("primary_mapped_percent".toList, .float f.PrimaryMappedPercent),
   ("paired_in_seq".toList, .pair f.PairedInSeq),
   ("read1".toList, .pair f.Read1),
   ("read2".toList, .pair f.Read2),
   ("properly_paired".toList, .pair f.ProperlyPaired),
   ("properly_paired_percent".toList, .float f.ProperlyPairedPercent),
   ("with_mate_mapped".toList, .pair f.WithMateMapped),
   ("singletons".toList, .pair f.Singletons),
   ("singletons_percent".toList, .float f.SingletonsPercent),
   ("mate_diff_chr".toList, .pair f.MateDiffChr),
   ("mate_diff_chr_mapq5".toList, .pair f.MateDiffChrMapQ5)]

/-- The text of one value. The text of a string (quotes and escapes) and of a finite
`float64` (shortest decimal that reads back as the same number) are those of the encoder
of the library, `encString` and `encFloat`. -/
def renderValue (encString : Str → Str) (encFloat : F64 → Str) : JValue → Str
  | .str s => encString s
  | .int i => fmtInt i
  | .float x => encFloat x
  | .pair v => '[' :: (fmtInt v.1 ++ ',' :: (fmtInt v.2 ++ [']']))

/-- The members of an object, separated by commas. -/
def renderMembers (encString : Str → Str) (encFloat : F64 → Str) : List (Str × JValue) → Str
  | [] => []
  | [kv] => '"' :: (kv.1 ++ '"' :: ':' :: renderValue encString encFloat kv.2)
  | kv :: rest =>
    '"' :: (kv.1 ++ '"' :: ':' :: renderValue encString encFloat kv.2) ++
      ',' :: renderMembers encString encFloat rest

/-- The key of the first `float64` that is an infinity or not-a-number, which
`json.Marshal` refuses to encode. -/
def unsupportedValue : List (Str × JValue) → Option Str
  | [] => none
  | (k, .float x) :: rest => if x.isFinite then unsupportedValue rest else some k
  | _ :: rest => unsupportedValue rest

/-- `json.Marshal` on a `*Flagstat`: the document, or the error for an unsupported value. -/
def jsonMarshal (encString : Str → Str) (encFloat : F64 → Str) (f : Flagstat) : Except Str Str :=
  match unsupportedValue (marshalFields f) with
  | some k => .error k
  | none => .ok ('{' :: (renderMembers encString encFloat (marshalFields f) ++ ['}']))

/-- Function `report`: the text report, or the document of `json.Marshal` in `Output`;
an error of `json.Marshal` ends the process. -/
def report (encString : Str → Str) (encFloat : F64 → Str) (flagstat : Flagstat)
    (jsonOutput : Bool) : Except ExitReason Flagstat :=
  if !jsonOutput then .ok (generateReport flagstat)
  else
    match jsonMarshal encString encFloat flagstat with
    | .error k => .error (.marshal k)
    | .ok flagstatJson => .ok { flagstat with Output := flagstatJson }

/-- How a run of the subcommand `parseflagstat` ends. -/
inductive RunResult
  | printed (text : Str) (warnings : List Str)
  | exited (reason : ExitReason) (warnings : List Str)
  | outOfFuel
  deriving DecidableEq, Repr

/-- Function `parseFlagstat` of `main.go` on an opened input: scan, report, print `Output`.
The package variables `jsonOutput` and `fastqReadCount`, the destinations of the two
flags, are the arguments of the same names; the function reads the first one only. -/
def parseFlagstat (encString : Str → Str) (encFloat : F64 → Str) (fuel : Nat) (jsonOutput : Bool)
    (fastqReadCount : Int) (scanner : Scanner) : RunResult :=
  let _ := fastqReadCount
  match scanFlagstat fuel scanner with
  | .outOfFuel => .outOfFuel
  | .exited reason ws => .exited reason ws
  | .returned flagstat err ws =>
    match report encString encFloat flagstat jsonOutput with
    | .error reason => .exited reason ws
    | .ok flagstat =>
      match err with
      | some e => .exited (.scanner e []) ws
      | none => .printed flagstat.Output ws

/-! ## Vocabulary of the statements -/

/-- A digit run is not empty and holds digits only. -/
def IsDigits (d : Str) : Prop := d ≠ [] ∧ ∀ c ∈ d, isDigit c = true

/-- A text that does not go on with a digit. -/
def NoDigitAhead (s : Str) : Prop := ∀ c t, s = c :: t → isDigit c = false

/-- Meaning of a token list as a regular expression anchored at the start of the text:
`Matches ts s caps rest` holds when `s` is the texts of the tokens of `ts`, one after the
other, followed by `rest`; a digit run may have any length from one on, and `caps` are the
texts of the capture groups. -/
inductive Matches : List Tok → Str → List Str → Str → Prop
  | done (s : Str) : Matches [] s [] s
  | num (d s : Str) (ts : List Tok) (caps : List Str) (rest : Str) :
      IsDigits d → Matches ts s caps rest → Matches (.num :: ts) (d ++ s) (d :: caps) rest
  | pct (ip fp s : Str) (ts : List Tok) (caps : List Str) (rest : Str) :
      IsDigits ip → IsDigits fp → Matches ts s caps rest →
      Matches (.pct :: ts) (ip ++ '.' :: (fp ++ s)) ((ip ++ '.' :: fp) :: caps) rest
  | lit (cs s : Str) (ts : List Tok) (caps : List Str) (rest : Str) :
      Matches ts s caps rest → Matches (.lit cs :: ts) (cs ++ s) caps rest
  | eot (ts : List Tok) (caps : List Str) (rest : Str) :
      Matches ts [] caps rest → Matches (.eot :: ts) [] caps rest

/-- The token lists in which every digit run is followed by a literal that starts with a
character other than a digit. -/
def Determinate : List Tok → Bool
  | [] => true
  | .num :: ts =>
    (match ts with
      | .lit (c :: _) :: _ => !isDigit c
      | _ => false) && Determinate ts
  | .pct :: ts =>
    (match ts with
      | .lit (c :: _) :: _ => !isDigit c
      | _ => false) && Determinate ts
  | _ :: ts => Determinate ts

/-- The tokens of a pattern after the common head. -/
def tailOf (c : Category) : List Tok := (patterns c).drop 3

/-- The four categories whose pattern captures a percentage. -/
def hasPercent : Category → Bool
  | .mapped | .primaryMapped | .properlyPaired | .singletons => true
  | _ => false

/-- The literal description with which the tail of a pattern starts. -/
def descOf (c : Category) : Str :=
  match tailOf c with
  | .lit l :: _ => l
  | _ => []

/-- The patterns that end in `$`. -/
def endsText (c : Category) : Bool := (tailOf c).contains .eot

/-- The flagstat line `a + b` followed by the text `desc`. -/
def countLine (a b : Nat) (desc : Str) : Str := fmtNat a ++ (" + ".toList ++ (fmtNat b ++ desc))

/-- The record after a pass of the loop body that stored the counts `v` and the percentage
`p` for the line `line` of category `c`. -/
def stored (c : Category) (f : Flagstat) (line : Str) (v : Int × Int) (p : F64) : Flagstat :=
  let g := assign c { f with Input := f.Input ++ (line ++ ['\n']) } v p
  { g with pppmp := pppmpOf g }

/-- The nine-line input of the end-to-end scenario of the specification. -/
def endToEndInput : Scanner :=
  ⟨[("1000 + 0 in total (QC-passed reads + QC-failed reads)".toList, none),
    ("950 + 0 primary".toList, none),
    ("900 + 0 mapped (90.00% : N/A)".toList, none),
    ("900 + 0 primary mapped (90.00% : N/A)".toList, none),
    ("950 + 0 paired in sequencing".toList, none),
    ("800 + 0 properly paired (80.00% : N/A)".toList, none),
    ("10 + 0 singletons (1.00% : N/A)".toList, none),
    ("5 + 0 with mate mapped to a different chr".toList, none),
    ("2 + 0 with mate mapped to a different chr (mapQ>=5)".toList, none)], none⟩

/-- An integer in the range of a Go `int`. -/
def InIntRange (x : Int) : Prop := minInt ≤ x ∧ x ≤ maxInt

instance (x : Int) : Decidable (InIntRange x) := by
  unfold InIntRange; infer_instance

/-- The sentence of the report about the expected read count (empty when none was given). -/
def readCountText (f : Flagstat) : Str :=
  if f.FastqReadCount > 0 then
    if intAdd f.Primary.1 f.Primary.2 != f.FastqReadCount then
      "Read count mismatch between user provided fastq read count and flagstat: ".toList
        ++ fmtInt f.FastqReadCount ++ " != ".toList ++ fmtInt (intAdd f.Primary.1 f.Primary.2)
        ++ ". ".toList
    else "all reads accounted for. ".toList
  else []

/-- The sentence of the report about the QC fail fraction. -/
def qcText (f : Flagstat) : Str :=
  "QC fail fraction: ".toList
    ++ fmtF2 (F64.mul (F64.div (F64.ofInt f.Total.2) (F64.ofInt f.Total.1)) (F64.ofInt 100))
    ++ "%. Only passing used for counts in this report.\n".toList

/-- The line of the report about primary mapped reads. -/
def mappedText (f : Flagstat) : Str :=
  fmtF2 f.PrimaryMappedPercent ++ "% reads (".toList
    ++ fmtInt f.PrimaryMapped.1 ++ ") are primarily mapped of which ".toList ++ fmtF2 f.pppmp
    ++ "% (".toList ++ fmtInt f.ProperlyPaired.1
    ++ ") are aligned and spaced as expected;. ".toList
    ++ fmtInt (intAdd f.Secondary.1 f.Secondary.2)
    ++ " additional secondary alignments have been recorded.\n".toList

/-- The line of the report about unmapped reads. -/
def unmappedText (f : Flagstat) : Str :=
  fmtInt (intSub (intSub (intAdd f.PairedInSeq.1 f.PairedInSeq.2) f.PrimaryMapped.1)
      f.PrimaryMapped.2)
    ++ " unmapped include ".toList ++ fmtInt f.Singletons.1 ++ " singletons\n".toList

/-- The line of the report about structural variation. -/
def svText (f : Flagstat) : Str :=
  "Structural variation evidence in ".toList ++ fmtInt f.MateDiffChr.1
    ++ " reads where mates mapped to a different chr of which ".toList
    ++ fmtF2 (F64.mul (F64.div (F64.ofInt f.MateDiffChrMapQ5.1) (F64.ofInt f.MateDiffChr.1))
        (F64.ofInt 100))
    ++ "% (".toList ++ fmtInt f.MateDiffChrMapQ5.1 ++ ") are high quality mappings. ".toList
    ++ fmtInt f.Supplementary.1 ++ " Supplementary mappings could also indicate SV\n".toList

/-- Search for the character `x` directly followed by `y`: `none` once the pair was read,
else whether the last character read was `x` (`p` tells it for the text before). -/
def pairScan (x y : Char) : Bool → Str → Option Bool
  | p, [] => some p
  | p, c :: t => if p && c == y then none else pairScan x y (c == x) t

/-- A text without the pair `x y` that does not end in `x`. -/
def Clean (x y : Char) (u : Str) : Prop := pairScan x y false u = some false

instance (x y : Char) (u : Str) : Decidable (Clean x y u) := by
  unfold Clean; infer_instance

/-- The characters of a number printed with `%d` or `%.2f`. -/
def isNumChar (c : Char) : Bool := isDigit c || "-.+NaInf".toList.contains c

/-- The count pair of a category in the record. -/
def pairOf : Category → Flagstat → Int × Int
  | .total, f => f.Total
  | .primary, f => f.Primary
  | .secondary, f => f.Secondary
  | .supplementary, f => f.Supplementary
  | .duplicates, f => f.Duplicates
  | .primaryDup, f => f.PrimaryDuplicates
  | .mapped, f => f.Mapped
  | .primaryMapped, f => f.PrimaryMapped
  | .pairedInSeq, f => f.PairedInSeq
  | .read1, f => f.Read1
  | .read2, f => f.Read2
  | .properlyPaired, f => f.ProperlyPaired
  | .withMateMapped, f => f.WithMateMapped
  | .singletons, f => f.Singletons
  | .mateDiffChr, f => f.MateDiffChr
  | .mateDiffChrMapQ5, f => f.MateDiffChrMapQ5

/-- The parsed percentage of a category in the record; only four categories have one. -/
def pctOf : Category → Flagstat → Option F64
  | .mapped, f => some f.MappedPercent
  | .primaryMapped, f => some f.PrimaryMappedPercent
  | .properlyPaired, f => some f.ProperlyPairedPercent
  | .singletons, f => some f.SingletonsPercent
  | _, _ => none

/-- The `json` key of the count pair of a category. -/
def pairKey : Category → Str
  | .total => "total".toList
  | .primary => "primary".toList
  | .secondary => "secondary".toList
  | .supplementary => "supplementary".toList
  | .duplicates => "duplicates".toList
  | .primaryDup => "primary_duplicates".toList
  | .mapped => "mapped".toList
  | .primaryMapped => "primary_mapped".toList
  | .pairedInSeq => "paired_in_seq".toList
  | .read1 => "read1".toList
  | .read2 => "read2".toList
  | .properlyPaired => "properly_paired".toList
  | .withMateMapped => "with_mate_mapped".toList
  | .singletons => "singletons".toList
  | .mateDiffChr => "mate_diff_chr".toList
  | .mateDiffChrMapQ5 => "mate_diff_chr_mapq5".toList

/-- The keys of the document, in the order of the fields of the struct. -/
def jsonKeys : List Str :=
  ["input".toList, "output".toList, "fastq_read_count".toList, "total".toList,
   "primary".toList, "secondary".toList, "supplementary".toList, "duplicates".toList,
   "primary_duplicates".toList, "mapped".toList, "mapped_percent".toList,
   "primary_mapped".toList, "primary_mapped_percent".toList, "paired_in_seq".toList,
   "read1".toList, "read2".toList, "properly_paired".toList,
   "properly_paired_percent".toList, "with_mate_mapped".toList, "singletons".toList,
   "singletons_percent".toList, "mate_diff_chr".toList, "mate_diff_chr_mapq5".toList]

/-- The `json` key of the parsed percentage of a category. -/
def pctKey (c : Category) : Str := pairKey c ++ "_percent".toList

/-- The four parsed percentages of the record are finite. -/
def FinitePercents (f : Flagstat) : Prop :=
  f.MappedPercent.isFinite = true ∧ f.PrimaryMappedPercent.isFinite = true ∧
  f.ProperlyPairedPercent.isFinite = true ∧ f.SingletonsPercent.isFinite = true

instance (f : Flagstat) : Decidable (FinitePercents f) := by
  unfold FinitePercents; infer_instance

/-- The text goes on with a percentage of the patterns: a digit run, a point, a digit run
and the sign `%`. -/
def PercentAhead (v : Str) : Prop :=
  ∃ ip fp t, IsDigits ip ∧ IsDigits fp ∧ v = ip ++ '.' :: (fp ++ '%' :: t)

/-- One evaluation of the labelled switch, without the jump: what a matching case hands
on, or, for the `default` case, the warnings with the new one added, with which the switch
is entered again. -/
def switchOnce (f : Flagstat) (line : Str) (ws : List Str) :
    (Flagstat × Option LineError × List Str) ⊕ List Str :=
  match firstCase line with
  | some c =>
    let r := parseFlagstatLine line (patterns c)
    .inl (assign c f r.1 r.2.1, r.2.2, ws)
  | none => .inr (ws ++ [line])

/-- A line on which the switch takes its `default` branch: no pattern matches it, no case
is chosen, and the switch warns about it and jumps back to its label. -/
def TakesDefault (line : Str) : Prop :=
  (∀ c, MatchString (patterns c) line = false) ∧ firstCase line = none ∧
  (∀ (f : Flagstat) (ws : List Str), switchOnce f line ws = .inr (ws ++ [line])) ∧
  ∀ (fuel : Nat) (f : Flagstat) (ws : List Str),
    switchTry2 (fuel + 1) f line ws = switchTry2 fuel f line (ws ++ [line])

/-- The category under which the switch files a token. -/
def catOf (tok : Str × Option ScanError) : Option Category := firstCase (TrimSpace tok.1)

/-- The last token of the category `c` in an input. -/
def lastOf (c : Category) (tokens : List (Str × Option ScanError)) :
    Option (Str × Option ScanError) :=
  (tokens.filter fun tok => catOf tok == some c).getLast?

/-- What `parseFlagstatLine` returns for a token under the pattern of `c`. -/
def parsed (c : Category) (tok : Str × Option ScanError) : (Int × Int) × F64 × Option LineError :=
  parseFlagstatLine (TrimSpace tok.1) (patterns c)

/-- Two records that agree on every field but `Input`. -/
def AgreeButInput (f g : Flagstat) : Prop := { f with Input := [] } = { g with Input := [] }

instance (f g : Flagstat) : Decidable (AgreeButInput f g) := by
  unfold AgreeButInput; infer_instance

/-- A line of the `primary mapped` category whose percentage, `2` followed by 309 zeros, is
beyond the largest binary64. -/
def overflowPrimaryMappedLine : Str :=
  "1 + 2 primary mapped (2".toList ++ (List.replicate 309 '0' ++ ".0% : N/A)".toList)

/-- A recognised line: after trimming it matches one of the sixteen patterns, its captures
parse without error, and the scanner reports no error after delivering it. -/
def Recognised (tok : Str × Option ScanError) : Prop :=
  tok.2 = none ∧ ∃ c, MatchString (patterns c) (TrimSpace tok.1) = true ∧
    (parseFlagstatLine (TrimSpace tok.1) (patterns c)).2.2 = none

/-- What the loop appends to `Input` for the given tokens: every line trimmed of surrounding
white space and closed by a line feed. -/
def inputText (tokens : List (Str × Option ScanError)) : Str :=
  (tokens.map fun tok => TrimSpace tok.1 ++ ['\n']).flatten

/-- The decimal `ip.fp` does not round to an infinity of binary64. -/
def InF64Range (ip fp : Str) : Prop :=
  (roundQ false (decVal (ip ++ fp)) (10 ^ fp.length)).isFinite = true

instance (ip fp : Str) : Decidable (InF64Range ip fp) := by
  unfold InF64Range; infer_instance

/-- The captured percentage `p` (of the shape `\d+\.\d+`) does not round to an infinity. -/
def PercentInRange (p : Str) : Prop :=
  InF64Range (p.takeWhile isDigit) ((p.dropWhile isDigit).drop 1)

/-- A line of the `mapped` category whose percentage, `2` followed by 309 zeros, is beyond
the largest binary64. -/
def overflowLine : Str :=
  "1 + 2 mapped (2".toList ++ (List.replicate 309 '0' ++ ".0% : N/A)".toList)

/-! # Lemmas and theorems -/

/-! ## Decimal digits -/

theorem isDigit_iff (c : Char) : isDigit c = true ↔ 48 ≤ c.toNat ∧ c.toNat ≤ 57 := by
  simp [isDigit]

theorem digitChar_toNat (d : Nat) (h : d < 10) : (digitChar d).toNat = 48 + d := by
  interval_cases d <;> rfl

theorem isDigit_digitChar (d : Nat) (h : d < 10) : isDigit (digitChar d) = true := by
  rw [isDigit_iff, digitChar_toNat d h]; omega

theorem digitVal_digitChar (d : Nat) (h : d < 10) : digitVal (digitChar d) = d := by
  simp [digitVal, digitChar_toNat d h]

theorem decVal_snoc (xs : Str) (c : Char) : decVal (xs ++ [c]) = decVal xs * 10 + digitVal c := by
  simp [decVal, List.foldl_append]

theorem decDigitsRev_digits (fuel n : Nat) : ∀ c ∈ decDigitsRev fuel n, isDigit c = true := by
  induction fuel generalizing n with
  | zero => simp [decDigitsRev]
  | succ k ih =>
    intro c hc
    unfold decDigitsRev at hc
    split at hc
    · simp only [List.mem_singleton] at hc
      subst hc
      exact isDigit_digitChar n (by assumption)
    · rcases List.mem_cons.mp hc with h | h
      · subst h
        exact isDigit_digitChar _ (Nat.mod_lt _ (by decide))
      · exact ih _ c h

theorem decDigitsRev_ne_nil (fuel n : Nat) : decDigitsRev (fuel + 1) n ≠ [] := by
  unfold decDigitsRev
  split <;> simp

theorem decVal_decDigitsRev (fuel n : Nat) (h : n < fuel) :
    decVal (decDigitsRev fuel n).reverse = n := by
  induction fuel generalizing n with
  | zero => omega
  | succ k ih =>
    unfold decDigitsRev
    split
    · rename_i h10
      simp [decVal, digitVal_digitChar n h10]
    · rw [List.reverse_cons, decVal_snoc, ih (n / 10) (by omega),
        digitVal_digitChar _ (Nat.mod_lt _ (by decide))]
      omega

theorem fmtNat_digits (n : Nat) : ∀ c ∈ fmtNat n, isDigit c = true := by
  intro c hc
  exact decDigitsRev_digits _ _ c (List.mem_reverse.mp hc)

theorem fmtNat_ne_nil (n : Nat) : fmtNat n ≠ [] := by
  simp [fmtNat, decDigitsRev_ne_nil]

theorem decVal_fmtNat (n : Nat) : decVal (fmtNat n) = n :=
  decVal_decDigitsRev (n + 1) n (Nat.lt_succ_self n)

theorem fmtNat_isDigits (n : Nat) : IsDigits (fmtNat n) := ⟨fmtNat_ne_nil n, fmtNat_digits n⟩

theorem takeWhile_isDigits (s : Str) (h : s.takeWhile isDigit ≠ []) :
    IsDigits (s.takeWhile isDigit) :=
  ⟨h, fun _ hc => (List.mem_takeWhile_imp hc)⟩

theorem dropWhile_noDigitAhead (s : Str) : NoDigitAhead (s.dropWhile isDigit) := by
  intro c t h
  induction s with
  | nil => simp at h
  | cons x xs ih =>
    rw [List.dropWhile_cons] at h
    split at h
    · exact ih h
    · rename_i hx
      cases h
      simpa using hx

theorem takeWhile_digits_append (d s : Str) (hd : ∀ c ∈ d, isDigit c = true)
    (hs : NoDigitAhead s) : (d ++ s).takeWhile isDigit = d := by
  rw [List.takeWhile_append_of_pos hd]
  cases s with
  | nil => simp
  | cons c t => simp [List.takeWhile_cons, hs c t rfl]

theorem dropWhile_digits_append (d s : Str) (hd : ∀ c ∈ d, isDigit c = true)
    (hs : NoDigitAhead s) : (d ++ s).dropWhile isDigit = s := by
  rw [List.dropWhile_append_of_pos hd]
  cases s with
  | nil => simp
  | cons c t => simp [List.dropWhile_cons, hs c t rfl]

/-! ## `strconv.Atoi` on a digit run -/

theorem Atoi_digits (d : Str) (hd : IsDigits d) :
    Atoi d = if maxInt < (decVal d : Int) then .error .rangeErr else .ok (decVal d : Int) := by
  obtain ⟨hne, hall⟩ := hd
  cases d with
  | nil => exact absurd rfl hne
  | cons c t =>
    have hc : isDigit c = true := hall c (List.mem_cons_self _ _)
    have h1 : c ≠ '-' := by rintro rfl; exact absurd hc (by decide)
    have h2 : c ≠ '+' := by rintro rfl; exact absurd hc (by decide)
    have hall' : (c :: t).all isDigit = true := List.all_eq_true.mpr hall
    have hmin : ¬ ((decVal (c :: t) : Int) < minInt) := by
      have : (0 : Int) ≤ (decVal (c :: t) : Int) := Int.ofNat_nonneg _
      simp only [minInt]; omega
    have hbody : atoiBody false (c :: t) =
        if maxInt < (decVal (c :: t) : Int) then .error .rangeErr else .ok (decVal (c :: t) : Int) := by
      simp [atoiBody, hall', hmin]
    unfold Atoi
    split
    · rename_i heq; cases heq; exact absurd rfl h1
    · rename_i heq; cases heq; exact absurd rfl h2
    · exact hbody

/-! ## Matching -/

theorem matchToks_append (ts us : List Tok) (s : Str) :
    matchToks (ts ++ us) s =
      (matchToks ts s).bind fun r => (matchToks us r.2).map fun x => (r.1 ++ x.1, x.2) := by
  induction ts generalizing s with
  | nil => simp [matchToks]
  | cons t ts ih =>
    cases t with
    | num =>
      simp only [List.cons_append, matchToks]
      split
      · rfl
      · simp only [List.append_eq]; rw [ih]; cases matchToks ts (List.dropWhile isDigit s) <;> simp [Function.comp_def]
    | pct =>
      simp only [List.cons_append, matchToks]
      split
      · split
        · rfl
        · simp only [List.append_eq]; rw [ih]; cases matchToks ts _ <;> simp [Function.comp_def]
      · rfl
    | lit cs =>
      simp only [List.cons_append, matchToks]
      split
      · exact ih _
      · rfl
    | eot =>
      simp only [List.cons_append, matchToks]
      split
      · exact ih _
      · rfl

theorem patterns_eq (c : Category) : patterns c = countsHead ++ tailOf c := by
  cases c <;> rfl

theorem lit_prefix_drop (l s : Str) (h : l.isPrefixOf s = true) : s = l ++ s.drop l.length := by
  rw [List.isPrefixOf_iff_prefix] at h
  obtain ⟨t, rfl⟩ := h
  simp

theorem matchToks_head_inv (s : Str) (caps : List Str) (rest : Str)
    (h : matchToks countsHead s = some (caps, rest)) :
    ∃ d1 d2, caps = [d1, d2] ∧ IsDigits d1 ∧ IsDigits d2 ∧
      s = d1 ++ (" + ".toList ++ (d2 ++ rest)) ∧ NoDigitAhead rest := by
  simp only [countsHead, matchToks] at h
  split at h
  · cases h
  · rename_i h1
    split at h
    · rename_i hp
      split at h
      · cases h
      · rename_i h2
        simp only [Option.map_some', Option.some.injEq, Prod.mk.injEq] at h
        obtain ⟨hc, hr⟩ := h
        refine ⟨_, _, hc.symm, takeWhile_isDigits _ (by simpa using h1),
          takeWhile_isDigits _ (by simpa using h2), ?_, ?_⟩
        · conv_lhs => rw [← List.takeWhile_append_dropWhile isDigit s, lit_prefix_drop _ _ hp]
          rw [← hr]
          simp
        · rw [← hr]; exact dropWhile_noDigitAhead _
    · cases h

theorem matchToks_head (d1 d2 rest : Str) (h1 : IsDigits d1) (h2 : IsDigits d2)
    (hr : NoDigitAhead rest) :
    matchToks countsHead (d1 ++ (" + ".toList ++ (d2 ++ rest))) = some ([d1, d2], rest) := by
  have hsp : NoDigitAhead (" + ".toList ++ (d2 ++ rest)) := by
    intro c t h
    cases h
    decide
  have e1 := takeWhile_digits_append d1 _ h1.2 hsp
  have e2 := dropWhile_digits_append d1 _ h1.2 hsp
  have e3 := takeWhile_digits_append d2 _ h2.2 hr
  have e4 := dropWhile_digits_append d2 _ h2.2 hr
  have n1 : d1.isEmpty = false := by simpa using h1.1
  have n2 : d2.isEmpty = false := by simpa using h2.1
  have hp : (" + ".toList).isPrefixOf (" + ".toList ++ (d2 ++ rest)) = true := by
    rw [List.isPrefixOf_iff_prefix]; exact List.prefix_append _ _
  simp only [countsHead, matchToks, e1, e2, n1, hp]
  simp [e3, e4, n2]

/-! ## The sixteen patterns exclude one another -/

theorem matchToks_lit_starts (l : Str) (ts : List Tok) (s : Str)
    (h : (matchToks (.lit l :: ts) s).isSome = true) : l <+: s := by
  simp only [matchToks] at h
  split at h
  · rename_i hp; exact List.isPrefixOf_iff_prefix.mp hp
  · simp at h

theorem matchToks_lit_eot (l : Str) (s : Str)
    (h : (matchToks [.lit l, .eot] s).isSome = true) : s = l := by
  simp only [matchToks] at h
  split at h
  · rename_i hp
    split at h
    · rename_i he
      have := lit_prefix_drop l s hp
      rw [List.isEmpty_iff.mp he] at this
      simpa using this
    · simp at h
  · simp at h

theorem tail_desc_starts (c : Category) (s : Str)
    (h : (matchToks (tailOf c) s).isSome = true) : descOf c <+: s := by
  cases c <;> exact matchToks_lit_starts _ _ s h

theorem tail_endsText (c : Category) (s : Str) (hc : endsText c = true)
    (h : (matchToks (tailOf c) s).isSome = true) : s = descOf c := by
  cases c <;> first | exact matchToks_lit_eot _ s h | exact absurd hc (by decide)

theorem desc_overlap (c1 c2 : Category) (hne : c1 ≠ c2)
    (h : (descOf c1).isPrefixOf (descOf c2) = true) :
    endsText c1 = true ∧ (descOf c2).length ≠ (descOf c1).length := by
  cases c1 <;> cases c2 <;> first | exact absurd rfl hne | exact absurd h (by decide) | decide

theorem tail_exclusive_aux (s : Str) (c1 c2 : Category)
    (h1 : (matchToks (tailOf c1) s).isSome = true) (h2 : (matchToks (tailOf c2) s).isSome = true)
    (hp : descOf c1 <+: descOf c2) : c1 = c2 := by
  by_contra hne
  obtain ⟨he, hlen⟩ := desc_overlap c1 c2 hne (List.isPrefixOf_iff_prefix.mpr hp)
  have hs := tail_endsText c1 s he h1
  have hp2 := tail_desc_starts c2 s h2
  rw [hs] at hp2
  exact hlen (Nat.le_antisymm hp2.length_le hp.length_le)

theorem tail_exclusive (s : Str) (c1 c2 : Category)
    (h1 : (matchToks (tailOf c1) s).isSome = true) (h2 : (matchToks (tailOf c2) s).isSome = true) :
    c1 = c2 := by
  rcases List.prefix_or_prefix_of_prefix (tail_desc_starts c1 s h1) (tail_desc_starts c2 s h2)
    with hp | hp
  · exact tail_exclusive_aux s c1 c2 h1 h2 hp
  · exact (tail_exclusive_aux s c2 c1 h2 h1 hp).symm

theorem MatchString_iff (c : Category) (line : Str) :
    MatchString (patterns c) line = true ↔
      ∃ caps rest, matchToks countsHead line = some (caps, rest) ∧
        (matchToks (tailOf c) rest).isSome = true := by
  rw [MatchString, patterns_eq, matchToks_append]
  cases h : matchToks countsHead line with
  | none => simp
  | some r =>
    obtain ⟨caps, rest⟩ := r
    cases h2 : matchToks (tailOf c) rest with
    | none => simp [h2]
    | some v => simpa [h2] using ⟨caps, rest, ⟨rfl, rfl⟩, by simp [h2]⟩

theorem patterns_exclusive (line : Str) (c1 c2 : Category)
    (h1 : MatchString (patterns c1) line = true) (h2 : MatchString (patterns c2) line = true) :
    c1 = c2 := by
  obtain ⟨caps, rest, hh, ht⟩ := (MatchString_iff c1 line).mp h1
  obtain ⟨caps', rest', hh', ht'⟩ := (MatchString_iff c2 line).mp h2
  rw [hh] at hh'
  cases hh'
  exact tail_exclusive rest c1 c2 ht ht'

theorem mem_caseOrder (c : Category) : c ∈ caseOrder := by
  cases c <;> decide

theorem find_of_exclusive (line : Str) (order : List Category) (c : Category) (hc : c ∈ order)
    (h : MatchString (patterns c) line = true) :
    order.find? (fun c => MatchString (patterns c) line) = some c := by
  induction order with
  | nil => simp at hc
  | cons x xs ih =>
    by_cases hx : MatchString (patterns x) line = true
    · simp only [List.find?_cons, hx]
      rw [patterns_exclusive line x c hx h]
    · simp only [List.find?_cons, hx]
      rcases List.mem_cons.mp hc with rfl | hmem
      · exact absurd h hx
      · exact ih hmem

theorem firstCase_eq_some_iff (line : Str) (c : Category) :
    firstCase line = some c ↔ MatchString (patterns c) line = true := by
  constructor
  · intro h
    have := List.find?_some h
    simpa using this
  · exact find_of_exclusive line caseOrder c (mem_caseOrder c)

theorem firstCase_eq_none_iff (line : Str) :
    firstCase line = none ↔ ∀ c, MatchString (patterns c) line = false := by
  rw [firstCase, List.find?_eq_none]
  constructor
  · intro h c; simpa using h c (mem_caseOrder c)
  · intro h c _; simp [h c]

/-! ## What a match captures -/

theorem matchToks_lit_caps (l : Str) (s : Str) (caps : List Str) (rest : Str)
    (h : matchToks [.lit l] s = some (caps, rest)) : caps = [] := by
  simp only [matchToks] at h
  split at h
  · cases h; rfl
  · cases h

theorem matchToks_lit_eot_caps (l : Str) (s : Str) (caps : List Str) (rest : Str)
    (h : matchToks [.lit l, .eot] s = some (caps, rest)) : caps = [] := by
  simp only [matchToks] at h
  split at h
  · split at h
    · cases h; rfl
    · cases h
  · cases h

theorem matchToks_lit_pct_caps (l m : Str) (s : Str) (caps : List Str) (rest : Str)
    (h : matchToks [.lit l, .pct, .lit m] s = some (caps, rest)) :
    ∃ ip fp, caps = [ip ++ '.' :: fp] ∧ IsDigits ip ∧ IsDigits fp := by
  simp only [matchToks] at h
  split at h
  · split at h
    · split at h
      · cases h
      · rename_i hne
        simp only [Bool.or_eq_true, not_or] at hne
        split at h
        · simp only [Option.map_some', Option.some.injEq, Prod.mk.injEq] at h
          exact ⟨_, _, h.1.symm, takeWhile_isDigits _ (by simpa using hne.1),
            takeWhile_isDigits _ (by simpa using hne.2)⟩
        · cases h
    · cases h
  · cases h

theorem tail_caps_twoCount (c : Category) (hc : hasPercent c = false) (s : Str)
    (caps : List Str) (rest : Str) (h : matchToks (tailOf c) s = some (caps, rest)) :
    caps = [] := by
  cases c <;> first
    | exact matchToks_lit_caps _ s caps rest h
    | exact matchToks_lit_eot_caps _ s caps rest h
    | exact absurd hc (by decide)

theorem tail_caps_percent (c : Category) (hc : hasPercent c = true) (s : Str)
    (caps : List Str) (rest : Str) (h : matchToks (tailOf c) s = some (caps, rest)) :
    ∃ ip fp, caps = [ip ++ '.' :: fp] ∧ IsDigits ip ∧ IsDigits fp := by
  cases c <;> first
    | exact matchToks_lit_pct_caps _ _ s caps rest h
    | exact absurd hc (by decide)

/-- Shape of the submatches of a line that matches the pattern of `c`. -/
theorem FindStringSubmatch_shape (c : Category) (line : Str) (ms : List Str)
    (h : FindStringSubmatch (patterns c) line = some ms) :
    ∃ full d1 d2 tc, ms = full :: d1 :: d2 :: tc ∧ IsDigits d1 ∧ IsDigits d2 ∧
      (hasPercent c = false → tc = []) ∧
      (hasPercent c = true → ∃ ip fp, tc = [ip ++ '.' :: fp] ∧ IsDigits ip ∧ IsDigits fp) := by
  rw [FindStringSubmatch, patterns_eq, matchToks_append] at h
  cases hh : matchToks countsHead line with
  | none => simp [hh] at h
  | some r =>
    obtain ⟨caps, rest⟩ := r
    obtain ⟨d1, d2, rfl, hd1, hd2, -, -⟩ := matchToks_head_inv line caps rest hh
    cases ht : matchToks (tailOf c) rest with
    | none => simp [hh, ht] at h
    | some x =>
      obtain ⟨tc, rest'⟩ := x
      simp only [hh, ht, Option.some_bind, Option.map_some', Option.some.injEq] at h
      refine ⟨line.take (line.length - rest'.length), d1, d2, tc, ?_, hd1, hd2, ?_, ?_⟩
      · rw [← h]; rfl
      · intro hc; exact tail_caps_twoCount c hc rest tc rest' ht
      · intro hc; exact tail_caps_percent c hc rest tc rest' ht

theorem isDigits_head_ne (d : Str) (hd : IsDigits d) (t : Str) (c : Char)
    (hc : isDigit c = false) : d ++ c :: t ≠ [] ∧ (d ++ c :: t).takeWhile isDigit = d ∧
      (d ++ c :: t).dropWhile isDigit = c :: t := by
  have hn : NoDigitAhead (c :: t) := by
    intro x y h; cases h; exact hc
  exact ⟨by simp, takeWhile_digits_append d _ hd.2 hn, dropWhile_digits_append d _ hd.2 hn⟩

theorem roundQ_ne_nan (neg : Bool) (n d : Nat) : roundQ neg n d ≠ .nan := by
  unfold roundQ
  split
  · simp
  · dsimp only
    split <;> split <;> split <;> simp

theorem ParseFloat_digits (ip fp : Str) (hi : IsDigits ip) (hf : IsDigits fp) :
    ParseFloat (ip ++ '.' :: fp) =
      match roundQ false (decVal (ip ++ fp)) (10 ^ fp.length) with
      | .inf _ => .error .rangeErr
      | v => .ok v := by
  obtain ⟨-, h1, h2⟩ := isDigits_head_ne ip hi fp '.' (by decide)
  have n1 : ip.isEmpty = false := by simpa using hi.1
  have n2 : fp.isEmpty = false := by simpa using hf.1
  have a2 : fp.all isDigit = true := List.all_eq_true.mpr hf.2
  simp only [ParseFloat, h1, h2, n1, n2, a2]
  simp

theorem ParseFloat_inRange (ip fp : Str) (hi : IsDigits ip) (hf : IsDigits fp)
    (hr : InF64Range ip fp) :
    ParseFloat (ip ++ '.' :: fp) = .ok (roundQ false (decVal (ip ++ fp)) (10 ^ fp.length)) := by
  rw [ParseFloat_digits ip fp hi hf]
  unfold InF64Range at hr
  split
  · rename_i s heq; rw [heq] at hr; cases hr
  · rfl

theorem ParseFloat_outOfRange (ip fp : Str) (hi : IsDigits ip) (hf : IsDigits fp)
    (hr : ¬ InF64Range ip fp) : ParseFloat (ip ++ '.' :: fp) = .error .rangeErr := by
  rw [ParseFloat_digits ip fp hi hf]
  unfold InF64Range at hr
  split
  · rfl
  · rename_i h
    exfalso; apply hr
    cases hv : roundQ false (decVal (ip ++ fp)) (10 ^ fp.length) with
    | nan => exact absurd hv (roundQ_ne_nan _ _ _)
    | inf s => exact absurd hv (h s)
    | fin _ _ _ => rfl

/-! ## `parseFlagstatLine` on a matching line -/

theorem parse_of_submatch (line : Str) (re : Regexp) (full d1 d2 : Str) (tc : List Str)
    (h : FindStringSubmatch re line = some (full :: d1 :: d2 :: tc))
    (hd1 : IsDigits d1) (hd2 : IsDigits d2) :
    parseFlagstatLine line re =
      if maxInt < (decVal d1 : Int) then ((0, 0), F64.zero, some (.firstInt .rangeErr))
      else if maxInt < (decVal d2 : Int) then ((0, 0), F64.zero, some (.secondInt .rangeErr))
      else
        match tc with
        | [] => (((decVal d1 : Int), (decVal d2 : Int)), F64.zero, none)
        | p :: _ =>
          if p = [] then (((decVal d1 : Int), (decVal d2 : Int)), F64.zero, none)
          else
            match ParseFloat p with
            | .error e => ((0, 0), F64.zero, some (.percent e))
            | .ok v => (((decVal d1 : Int), (decVal d2 : Int)), v, none) := by
  simp only [parseFlagstatLine, h, List.getD_cons_succ, List.getD_cons_zero, Atoi_digits d1 hd1,
    Atoi_digits d2 hd2]
  by_cases h1 : maxInt < (decVal d1 : Int)
  · simp [h1]
  · by_cases h2 : maxInt < (decVal d2 : Int)
    · simp [h1, h2]
    · cases tc with
      | nil => simp [h1, h2]
      | cons p t =>
        by_cases hp : p = []
        · simp [h1, h2, hp]
        · simp only [h1, h2, hp, if_false, List.length_cons, List.getD_cons_zero]
          cases ParseFloat p <;> simp [hp]

theorem parse_noMatch (line : Str) (re : Regexp) (h : FindStringSubmatch re line = none) :
    parseFlagstatLine line re = ((0, 0), F64.zero, some (.noMatch line)) := by
  simp [parseFlagstatLine, h]

theorem FindStringSubmatch_isSome (re : Regexp) (line : Str) :
    (FindStringSubmatch re line).isSome = MatchString re line := by
  simp [FindStringSubmatch, MatchString]

/-! ## `strings.TrimSpace` -/

theorem isSpace_of_isDigit (c : Char) (h : isDigit c = true) : isSpace c = false := by
  rw [isDigit_iff] at h
  simp only [isSpace, Bool.or_eq_false_iff, Bool.and_eq_false_imp, beq_eq_false_iff_ne,
    decide_eq_true_eq, decide_eq_false_iff_not]
  omega

theorem trimRight_snoc_append (p : Str) (c : Char) (hc : isSpace c = false) (s : Str) :
    trimRight (p ++ c :: s) = p ++ c :: trimRight s := by
  simp only [trimRight, List.reverse_append, List.reverse_cons, List.append_assoc,
    List.singleton_append]
  rw [List.dropWhile_append]
  split
  · rename_i he
    rw [List.isEmpty_iff.mp he, List.dropWhile_cons]
    simp [hc]
  · simp

theorem TrimSpace_line (d : Str) (hd : IsDigits d) (p : Str) (c : Char) (hc : isSpace c = false)
    (s : Str) : TrimSpace (d ++ (p ++ c :: s)) = d ++ (p ++ c :: trimRight s) := by
  obtain ⟨hne, hall⟩ := hd
  cases d with
  | nil => exact absurd rfl hne
  | cons x xs =>
    have hx : isSpace x = false := isSpace_of_isDigit x (hall x (List.mem_cons_self _ _))
    have : (x :: xs ++ (p ++ c :: s)).dropWhile isSpace = (x :: xs ++ p) ++ c :: s := by
      simp [List.dropWhile_cons, hx]
    rw [TrimSpace, this, trimRight_snoc_append _ c hc]
    simp

theorem trimRight_nil : trimRight [] = [] := rfl

/-! ## Lines that match -/

theorem matchToks_open (l s : Str) : matchToks [.lit l] (l ++ s) = some ([], s) := by
  have hp : l.isPrefixOf (l ++ s) = true := List.isPrefixOf_iff_prefix.mpr (List.prefix_append _ _)
  simp [matchToks, hp]

theorem matchToks_closed (l : Str) : matchToks [.lit l, .eot] l = some ([], []) := by
  have hp : l.isPrefixOf l = true := List.isPrefixOf_iff_prefix.mpr (List.prefix_refl _)
  simp [matchToks, hp]

theorem matchToks_percent (l ip fp s : Str) (hi : IsDigits ip) (hf : IsDigits fp) :
    matchToks [.lit l, .pct, .lit "%".toList] (l ++ (ip ++ '.' :: (fp ++ '%' :: s))) =
      some ([ip ++ '.' :: fp], s) := by
  have hp : l.isPrefixOf (l ++ (ip ++ '.' :: (fp ++ '%' :: s))) = true :=
    List.isPrefixOf_iff_prefix.mpr (List.prefix_append _ _)
  obtain ⟨-, h1, h2⟩ := isDigits_head_ne ip hi (fp ++ '%' :: s) '.' (by decide)
  obtain ⟨-, h3, h4⟩ := isDigits_head_ne fp hf s '%' (by decide)
  have n1 : ip.isEmpty = false := by simpa using hi.1
  have n2 : fp.isEmpty = false := by simpa using hf.1
  simp only [matchToks, hp, if_true, List.drop_left, h1, h2, h3, h4, n1, n2]
  simp

/-- A line made of two digit runs, the separator and a rest that the tail of the pattern
matches is matched by the pattern, with the digit runs as its first two groups. -/
theorem FindStringSubmatch_line (c : Category) (d1 d2 rest : Str) (tc : List Str) (r : Str)
    (h1 : IsDigits d1) (h2 : IsDigits d2) (hr : NoDigitAhead rest)
    (ht : matchToks (tailOf c) rest = some (tc, r)) :
    ∃ full, FindStringSubmatch (patterns c) (d1 ++ (" + ".toList ++ (d2 ++ rest))) =
      some (full :: d1 :: d2 :: tc) := by
  rw [FindStringSubmatch, patterns_eq, matchToks_append, matchToks_head d1 d2 rest h1 h2 hr]
  simp [ht]

theorem noDigitAhead_space (s : Str) : NoDigitAhead (' ' :: s) := by
  intro c t h; cases h; decide

/-! ## The matcher against the meaning of the patterns -/

theorem matches_lit_head (c : Char) (cs : Str) (ts : List Tok) (s : Str) (caps : List Str)
    (rest : Str) (h : Matches (.lit (c :: cs) :: ts) s caps rest) : ∃ t, s = c :: t := by
  cases h with
  | lit _ s' _ _ _ _ => exact ⟨cs ++ s', rfl⟩

theorem matches_next_noDigit (ts : List Tok) (s : Str) (caps : List Str) (rest : Str)
    (hd : (match ts with
      | .lit (c :: _) :: _ => !isDigit c
      | _ => false) = true)
    (h : Matches ts s caps rest) : NoDigitAhead s := by
  match ts, hd with
  | .lit (c :: cs) :: ts', hd =>
    obtain ⟨t, rfl⟩ := matches_lit_head c cs ts' s caps rest h
    intro x y hx
    cases hx
    simpa using hd

theorem matchToks_of_matches (ts : List Tok) (s : Str) (caps : List Str) (rest : Str)
    (hdet : Determinate ts = true) (h : Matches ts s caps rest) :
    matchToks ts s = some (caps, rest) := by
  induction h with
  | done s => rfl
  | num d s ts caps rest hd hm ih =>
    simp only [Determinate, Bool.and_eq_true] at hdet
    have hn := matches_next_noDigit ts s caps rest hdet.1 hm
    have hne : d.isEmpty = false := by simpa using hd.1
    simp [matchToks, takeWhile_digits_append d s hd.2 hn, dropWhile_digits_append d s hd.2 hn,
      hne, ih hdet.2]
  | pct ip fp s ts caps rest hi hf hm ih =>
    simp only [Determinate, Bool.and_eq_true] at hdet
    have hn := matches_next_noDigit ts s caps rest hdet.1 hm
    obtain ⟨-, h1, h2⟩ := isDigits_head_ne ip hi (fp ++ s) '.' (by decide)
    have n1 : ip.isEmpty = false := by simpa using hi.1
    have n2 : fp.isEmpty = false := by simpa using hf.1
    simp [matchToks, h1, h2, takeWhile_digits_append fp s hf.2 hn,
      dropWhile_digits_append fp s hf.2 hn, n1, n2, ih hdet.2]
  | lit cs s ts caps rest hm ih =>
    have hp : cs.isPrefixOf (cs ++ s) = true :=
      List.isPrefixOf_iff_prefix.mpr (List.prefix_append _ _)
    simp only [matchToks, hp, if_true, List.drop_left]
    exact ih (by simpa [Determinate] using hdet)
  | eot ts caps rest hm ih =>
    simp only [matchToks, List.isEmpty_nil, if_true]
    exact ih (by simpa [Determinate] using hdet)

theorem matches_of_matchToks (ts : List Tok) (s : Str) (caps : List Str) (rest : Str)
    (h : matchToks ts s = some (caps, rest)) : Matches ts s caps rest := by
  induction ts generalizing s caps with
  | nil =>
    simp only [matchToks, Option.some.injEq, Prod.mk.injEq] at h
    obtain ⟨rfl, rfl⟩ := h
    exact .done s
  | cons t ts ih =>
    cases t with
    | num =>
      simp only [matchToks] at h
      split at h
      · cases h
      · rename_i hne
        cases hr : matchToks ts (s.dropWhile isDigit) with
        | none => simp [hr] at h
        | some r =>
          simp only [hr, Option.map_some', Option.some.injEq, Prod.mk.injEq] at h
          obtain ⟨rfl, rfl⟩ := h
          have := Matches.num _ _ ts r.1 r.2 (takeWhile_isDigits s (by simpa using hne))
            (ih _ _ hr)
          rwa [List.takeWhile_append_dropWhile] at this
    | pct =>
      simp only [matchToks] at h
      split at h
      · rename_i r hs
        split at h
        · cases h
        · rename_i hne
          simp only [Bool.or_eq_true, not_or] at hne
          cases hr : matchToks ts (r.dropWhile isDigit) with
          | none => simp [hr] at h
          | some x =>
            simp only [hr, Option.map_some', Option.some.injEq, Prod.mk.injEq] at h
            obtain ⟨rfl, rfl⟩ := h
            have := Matches.pct _ _ _ ts x.1 x.2 (takeWhile_isDigits s (by simpa using hne.1))
              (takeWhile_isDigits r (by simpa using hne.2)) (ih _ _ hr)
            rw [List.takeWhile_append_dropWhile, ← hs, List.takeWhile_append_dropWhile] at this
            exact this
      · cases h
    | lit cs =>
      simp only [matchToks] at h
      split at h
      · rename_i hp
        have := Matches.lit cs _ ts caps rest (ih _ _ h)
        rwa [← lit_prefix_drop cs s hp] at this
      · cases h
    | eot =>
      simp only [matchToks] at h
      split at h
      · rename_i he
        rw [List.isEmpty_iff.mp he] at h ⊢
        exact .eot ts caps rest (ih _ _ h)
      · cases h

theorem patterns_determinate (c : Category) : Determinate (patterns c) = true := by
  cases c <;> decide

/-- On each of the sixteen patterns the matcher finds exactly the matches of the regular
expression. -/
theorem matchToks_iff_matches (c : Category) (s : Str) (caps : List Str) (rest : Str) :
    matchToks (patterns c) s = some (caps, rest) ↔ Matches (patterns c) s caps rest :=
  ⟨matches_of_matchToks _ s caps rest,
    matchToks_of_matches _ s caps rest (patterns_determinate c)⟩

theorem MatchString_iff_matches (c : Category) (s : Str) :
    MatchString (patterns c) s = true ↔ ∃ caps rest, Matches (patterns c) s caps rest := by
  rw [MatchString, Option.isSome_iff_exists]
  constructor
  · rintro ⟨⟨caps, rest⟩, h⟩
    exact ⟨caps, rest, (matchToks_iff_matches c s caps rest).mp h⟩
  · rintro ⟨caps, rest, h⟩
    exact ⟨(caps, rest), (matchToks_iff_matches c s caps rest).mpr h⟩

/-! ## One pass of the loop body -/

theorem switchTry2_of_match (fuel : Nat) (f : Flagstat) (line : Str) (ws : List Str)
    (c : Category) (h : MatchString (patterns c) line = true) :
    switchTry2 (fuel + 1) f line ws =
      some (assign c f (parseFlagstatLine line (patterns c)).1
        (parseFlagstatLine line (patterns c)).2.1, (parseFlagstatLine line (patterns c)).2.2, ws) := by
  simp [switchTry2, (firstCase_eq_some_iff line c).mpr h]

theorem loopBody_of_parse (fuel : Nat) (f : Flagstat) (ws : List Str) (text : Str)
    (c : Category) (v : Int × Int) (p : F64)
    (hm : MatchString (patterns c) (TrimSpace text) = true)
    (hp : parseFlagstatLine (TrimSpace text) (patterns c) = (v, p, none)) :
    loopBody (fuel + 1) (text, none) f ws = .next (stored c f (TrimSpace text) v p) ws := by
  simp [loopBody, switchTry2_of_match fuel _ _ ws c hm, hp, stored]

theorem loopBody_of_parse_error (fuel : Nat) (f : Flagstat) (ws : List Str)
    (tok : Str × Option ScanError) (c : Category) (e : LineError)
    (hm : MatchString (patterns c) (TrimSpace tok.1) = true)
    (hp : (parseFlagstatLine (TrimSpace tok.1) (patterns c)).2.2 = some e) :
    loopBody (fuel + 1) tok f ws = .stop (.exited (.sentinel e) ws) := by
  simp [loopBody, switchTry2_of_match fuel _ _ ws c hm, hp]

/-- A two-count line `a + b desc` whose counts fit an `int` parses to `(a, b)`. -/
theorem parse_countLine_twoCount (c : Category) (a b : Nat) (ha : (a : Int) ≤ maxInt)
    (hb : (b : Int) ≤ maxInt) (rest r : Str) (hr : NoDigitAhead rest)
    (ht : matchToks (tailOf c) rest = some ([], r)) :
    MatchString (patterns c) (countLine a b rest) = true ∧
    parseFlagstatLine (countLine a b rest) (patterns c) = (((a : Int), (b : Int)), F64.zero, none) := by
  obtain ⟨full, hfull⟩ := FindStringSubmatch_line c (fmtNat a) (fmtNat b) rest [] r
    (fmtNat_isDigits a) (fmtNat_isDigits b) hr ht
  refine ⟨?_, ?_⟩
  · rw [← FindStringSubmatch_isSome, countLine, hfull]; rfl
  · rw [countLine, parse_of_submatch _ _ full _ _ [] hfull (fmtNat_isDigits a) (fmtNat_isDigits b),
      decVal_fmtNat, decVal_fmtNat, if_neg (not_lt.mpr ha), if_neg (not_lt.mpr hb)]

/-- A percentage line `a + b desc ip.fp%...` whose counts fit an `int` and whose percentage
is in the range of binary64 parses to `(a, b)` and the rounded percentage. -/
theorem parse_countLine_percent (c : Category) (a b : Nat) (ha : (a : Int) ≤ maxInt)
    (hb : (b : Int) ≤ maxInt) (rest r ip fp : Str) (hr : NoDigitAhead rest)
    (hi : IsDigits ip) (hf : IsDigits fp) (hrange : InF64Range ip fp)
    (ht : matchToks (tailOf c) rest = some ([ip ++ '.' :: fp], r)) :
    MatchString (patterns c) (countLine a b rest) = true ∧
    parseFlagstatLine (countLine a b rest) (patterns c) =
      (((a : Int), (b : Int)), roundQ false (decVal (ip ++ fp)) (10 ^ fp.length), none) := by
  obtain ⟨full, hfull⟩ := FindStringSubmatch_line c (fmtNat a) (fmtNat b) rest _ r
    (fmtNat_isDigits a) (fmtNat_isDigits b) hr ht
  refine ⟨?_, ?_⟩
  · rw [← FindStringSubmatch_isSome, countLine, hfull]; rfl
  · rw [countLine, parse_of_submatch _ _ full _ _ _ hfull (fmtNat_isDigits a) (fmtNat_isDigits b),
      decVal_fmtNat, decVal_fmtNat, if_neg (not_lt.mpr ha), if_neg (not_lt.mpr hb)]
    simp [ParseFloat_inRange ip fp hi hf hrange]

theorem TrimSpace_countLine (a b : Nat) (p : Str) (c : Char) (hc : isSpace c = false) (s : Str) :
    TrimSpace (countLine a b (p ++ c :: s)) = countLine a b (p ++ c :: trimRight s) := by
  have := TrimSpace_line (fmtNat a) (fmtNat_isDigits a) (" + ".toList ++ (fmtNat b ++ p)) c hc s
  simpa [countLine] using this

/-! ## The range of binary64 -/

theorem log2Fuel_spec (fuel n : Nat) (hn : 0 < n) (hf : n ≤ fuel) :
    2 ^ log2Fuel fuel n ≤ n ∧ n < 2 ^ (log2Fuel fuel n + 1) := by
  induction fuel generalizing n with
  | zero => omega
  | succ k ih =>
    unfold log2Fuel
    split
    · have : n = 1 := by omega
      subst this
      simp
    · obtain ⟨h1, h2⟩ := ih (n / 2) (by omega) (by omega)
      rw [pow_succ] at h2 ⊢
      rw [pow_succ _ (log2Fuel k (n / 2) + 1), pow_succ]
      constructor <;> omega

theorem log2_spec (n : Nat) (hn : 0 < n) : 2 ^ log2 n ≤ n ∧ n < 2 ^ (log2 n + 1) :=
  log2Fuel_spec n n hn (Nat.le_refl n)

theorem floorLog2_spec (num den : Nat) (hn : 0 < num) (hd : 0 < den) :
    (∀ j : Nat, floorLog2 num den = (j : Int) → den * 2 ^ j ≤ num ∧ num < den * 2 ^ (j + 1)) ∧
    (∀ j : Nat, den * 2 ^ j ≤ num → (j : Int) ≤ floorLog2 num den) := by
  obtain ⟨hL1, hL2⟩ := log2_spec num hn
  obtain ⟨hM1, hM2⟩ := log2_spec den hd
  have hpos : ∀ j : Nat, 0 < 2 ^ j := fun j => Nat.pow_pos (by decide)
  by_cases hLM : log2 den ≤ log2 num
  · obtain ⟨d, hd'⟩ := Nat.exists_eq_add_of_le hLM
    have hk : ((log2 num : Nat) : Int) - ((log2 den : Nat) : Int) = (d : Int) := by
      rw [hd']; push_cast; ring
    have hLd : 2 ^ log2 num = 2 ^ log2 den * 2 ^ d := by rw [hd', pow_add]
    have hLd1 : 2 ^ (log2 num + 1) = 2 ^ log2 den * 2 ^ (d + 1) := by
      rw [hd', ← pow_add]; ring_nf
    have hup : num < den * 2 ^ (d + 1) := by
      calc num < 2 ^ (log2 num + 1) := hL2
        _ = 2 ^ log2 den * 2 ^ (d + 1) := hLd1
        _ ≤ den * 2 ^ (d + 1) := Nat.mul_le_mul_right _ hM1
    simp only [floorLog2, hk, Int.natCast_nonneg, if_true, Int.toNat_natCast]
    by_cases hb : num < den * 2 ^ d
    · simp only [hb, decide_True, if_true]
      constructor
      · intro j hj
        have hjd : d = j + 1 := by omega
        subst hjd
        refine ⟨?_, hb⟩
        have h3 : den * 2 ^ j < 2 ^ log2 den * 2 ^ (j + 1) := by
          rw [pow_succ 2 j, ← Nat.mul_assoc]
          rw [pow_succ] at hM2
          have := hpos j
          nlinarith
        omega
      · intro j hj
        have h3 : den * 2 ^ j < den * 2 ^ d := lt_of_le_of_lt hj hb
        have h4 : 2 ^ j < 2 ^ d := Nat.lt_of_mul_lt_mul_left h3
        have h5 : j < d := (Nat.pow_lt_pow_iff_right (by decide)).mp h4
        omega
    · simp only [hb, decide_False, Bool.false_eq_true, if_false]
      constructor
      · intro j hj
        have hjd : d = j := by omega
        subst hjd
        exact ⟨by omega, hup⟩
      · intro j hj
        have h3 : den * 2 ^ j < den * 2 ^ (d + 1) := lt_of_le_of_lt hj hup
        have h4 : 2 ^ j < 2 ^ (d + 1) := Nat.lt_of_mul_lt_mul_left h3
        have h5 : j < d + 1 := (Nat.pow_lt_pow_iff_right (by decide)).mp h4
        omega
  · have hneg : ((log2 num : Nat) : Int) - ((log2 den : Nat) : Int) < 0 := by omega
    have hlt : num < den := by
      have h1 : 2 ^ (log2 num + 1) ≤ 2 ^ log2 den := Nat.pow_le_pow_right (by decide) (by omega)
      omega
    have hres : floorLog2 num den < 0 := by
      simp only [floorLog2]
      split <;> omega
    constructor
    · intro j hj; omega
    · intro j hj
      have := hpos j
      have : den ≤ den * 2 ^ j := Nat.le_mul_of_pos_right _ this
      omega

theorem roundQ_eq (neg : Bool) (num den : Nat) (hn : num ≠ 0) (hd : den ≠ 0) (e : Int)
    (he : max (floorLog2 num den - 52) (-1074) = e) (m : Nat)
    (hm : (if 0 ≤ e then roundHalfEven num (den * 2 ^ e.toNat)
      else roundHalfEven (num * 2 ^ (-e).toNat) den) = m) :
    roundQ neg num den =
      if m = 2 ^ 53 then (if 971 < e + 1 then .inf neg else .fin neg (2 ^ 52) (e + 1))
      else (if 971 < e then .inf neg else .fin neg m e) := by
  unfold roundQ
  have h0 : (num == 0 || den == 0) = false := by simp [hn, hd]
  simp only [h0, Bool.false_eq_true, if_false, he, hm, beq_iff_eq]
  by_cases h : m = 2 ^ 53
  · rw [if_pos h, if_pos h]
  · rw [if_neg h, if_neg h]

/-- Rounding `num / D` up to `2^53` happens exactly from `2^53 - 1/2` on. -/
theorem roundHalfEven_eq_top (num H : Nat) (hH : 0 < H) (hlt : num < 2 * H * 2 ^ 53) :
    roundHalfEven num (2 * H) = 2 ^ 53 ↔ (2 ^ 54 - 1) * H ≤ num := by
  have hD : 0 < 2 * H := by omega
  have hq : num / (2 * H) < 2 ^ 53 := Nat.div_lt_of_lt_mul hlt
  have hdm := Nat.div_add_mod num (2 * H)
  have hr : num % (2 * H) < 2 * H := Nat.mod_lt _ hD
  have hle : 9007199254740991 ≤ num / (2 * H) ↔ 9007199254740991 * (2 * H) ≤ num :=
    Nat.le_div_iff_mul_le hD
  unfold roundHalfEven
  dsimp only
  generalize num / (2 * H) = q at hq hdm hle ⊢
  generalize num % (2 * H) = r at hdm hr ⊢
  norm_num at hq hlt ⊢
  constructor
  · intro h
    split at h
    · rename_i hc
      have hq2 : q = 9007199254740991 := by omega
      subst hq2
      omega
    · omega
  · intro h
    have hq2 : q = 9007199254740991 := by
      have : 9007199254740991 ≤ q := hle.mpr (by omega)
      omega
    subst hq2
    have hc : H < r ∨ r = H ∧ 9007199254740991 % 2 = 1 := by omega
    rw [if_pos hc]

set_option exponentiation.threshold 2000 in
/-- The quotient `num / den` rounds to a finite binary64 exactly when it is below
`2^1024 - 2^970`, half a unit in the last place above the largest binary64. -/
theorem roundQ_isFinite_iff (neg : Bool) (num den : Nat) (hd : 0 < den) :
    (roundQ neg num den).isFinite = true ↔ num < (2 ^ 1024 - 2 ^ 970) * den := by
  by_cases hn : num = 0
  · subst hn
    have : 0 < (2 ^ 1024 - 2 ^ 970) * den := Nat.mul_pos (by norm_num) hd
    simp [roundQ, F64.isFinite, this, hd]
  · obtain ⟨hA, hB⟩ := floorLog2_spec num den (Nat.pos_of_ne_zero hn) hd
    obtain ⟨k, hk⟩ : ∃ k, floorLog2 num den = k := ⟨_, rfl⟩
    obtain ⟨e, he⟩ : ∃ e, max (k - 52) (-1074) = e := ⟨_, rfl⟩
    obtain ⟨m, hm⟩ : ∃ m, (if 0 ≤ e then roundHalfEven num (den * 2 ^ e.toNat)
      else roundHalfEven (num * 2 ^ (-e).toNat) den) = m := ⟨_, rfl⟩
    rw [roundQ_eq neg num den hn hd.ne' e (by rw [hk]; exact he) m hm]
    rw [hk] at hA hB
    have hebound : (k - 52 ≤ e) ∧ (e = k - 52 ∨ e = -1074) := by
      rcases max_cases (k - 52) (-1074 : Int) with ⟨h, _⟩ | ⟨h, _⟩ <;> rw [h] at he <;> omega
    have hTle : den * 2 ^ 1023 ≤ (2 ^ 1024 - 2 ^ 970) * den := by
      rw [Nat.mul_comm]; exact Nat.mul_le_mul_right _ (by norm_num)
    have hTlt : (2 ^ 1024 - 2 ^ 970) * den < den * 2 ^ 1024 := by
      rw [Nat.mul_comm]; exact Nat.mul_lt_mul_of_pos_left (by norm_num) hd
    rcases lt_trichotomy k 1023 with hlt | heq | hgt
    · have hT : num < (2 ^ 1024 - 2 ^ 970) * den := by
        by_contra hc
        have := hB 1023 (by omega)
        omega
      simp only [hT, iff_true]
      by_cases h : m = 2 ^ 53
      · rw [if_pos h, if_neg (by omega)]; rfl
      · rw [if_neg h, if_neg (by omega)]; rfl
    · subst heq
      have he' : e = 971 := by omega
      subst he'
      obtain ⟨h1, h2⟩ := hA 1023 rfl
      have hH : 0 < den * 2 ^ 970 := Nat.mul_pos hd (by norm_num)
      have hDH : den * 2 ^ (971 : Int).toNat = 2 * (den * 2 ^ 970) := by
        have : (971 : Int).toNat = 970 + 1 := by decide
        rw [this, pow_succ]; ring
      have hm' : roundHalfEven num (2 * (den * 2 ^ 970)) = m := by
        rw [← hDH]; simpa using hm
      have hlt' : num < 2 * (den * 2 ^ 970) * 2 ^ 53 := by
        have : 2 * (den * 2 ^ 970) * 2 ^ 53 = den * 2 ^ (1023 + 1) := by ring
        omega
      have key := roundHalfEven_eq_top num (den * 2 ^ 970) hH hlt'
      rw [hm'] at key
      have hTH : (2 ^ 1024 - 2 ^ 970) * den = (2 ^ 54 - 1) * (den * 2 ^ 970) := by
        have : (2 ^ 1024 - 2 ^ 970 : Nat) = (2 ^ 54 - 1) * 2 ^ 970 := by norm_num
        rw [this]; ring
      rw [hTH]
      by_cases h : m = 2 ^ 53
      · rw [if_pos h, if_pos (by omega)]
        have := key.mp h
        simp only [F64.isFinite, Bool.false_eq_true, false_iff, not_lt]
        exact this
      · rw [if_neg h, if_neg (by omega)]
        have : ¬ (2 ^ 54 - 1) * (den * 2 ^ 970) ≤ num := fun hc => h (key.mpr hc)
        simp only [F64.isFinite, true_iff]
        omega
    · have hk0 : 0 ≤ k := by omega
      obtain ⟨j, hj⟩ := Int.eq_ofNat_of_zero_le hk0
      obtain ⟨h1, -⟩ := hA j hj
      have hj' : 1024 ≤ j := by omega
      have h2 : den * 2 ^ 1024 ≤ den * 2 ^ j :=
        Nat.mul_le_mul_left _ (Nat.pow_le_pow_right (by decide) hj')
      have hT : ¬ num < (2 ^ 1024 - 2 ^ 970) * den := by omega
      simp only [hT, iff_false]
      by_cases h : m = 2 ^ 53
      · rw [if_pos h, if_pos (by omega)]; simp [F64.isFinite]
      · rw [if_neg h, if_pos (by omega)]; simp [F64.isFinite]

set_option exponentiation.threshold 2000 in
/-- The captured decimal `ip.fp` is in the range of binary64 exactly when its value is below
`2^1024 - 2^970`. -/
theorem inF64Range_iff (ip fp : Str) :
    InF64Range ip fp ↔ decVal (ip ++ fp) < (2 ^ 1024 - 2 ^ 970) * 10 ^ fp.length :=
  roundQ_isFinite_iff false _ _ (Nat.pow_pos (by decide))

/-! ## C1: overlapping shapes -/

/-- A percentage line `a + b desc ip.fp%...` whose percentage is beyond the range of binary64
matches the pattern and parses to the range error of the percentage. -/
theorem parse_countLine_percent_overflow (c : Category) (a b : Nat) (ha : (a : Int) ≤ maxInt)
    (hb : (b : Int) ≤ maxInt) (rest r ip fp : Str) (hr : NoDigitAhead rest)
    (hi : IsDigits ip) (hf : IsDigits fp) (hrange : ¬ InF64Range ip fp)
    (ht : matchToks (tailOf c) rest = some ([ip ++ '.' :: fp], r)) :
    MatchString (patterns c) (countLine a b rest) = true ∧
    parseFlagstatLine (countLine a b rest) (patterns c) =
      ((0, 0), F64.zero, some (.percent .rangeErr)) := by
  obtain ⟨full, hfull⟩ := FindStringSubmatch_line c (fmtNat a) (fmtNat b) rest _ r
    (fmtNat_isDigits a) (fmtNat_isDigits b) hr ht
  refine ⟨?_, ?_⟩
  · rw [← FindStringSubmatch_isSome, countLine, hfull]; rfl
  · rw [countLine, parse_of_submatch _ _ full _ _ _ hfull (fmtNat_isDigits a) (fmtNat_isDigits b),
      decVal_fmtNat, decVal_fmtNat, if_neg (not_lt.mpr ha), if_neg (not_lt.mpr hb)]
    simp [ParseFloat_outOfRange ip fp hi hf hrange]

set_option maxRecDepth 1000000 in
set_option exponentiation.threshold 2000 in
/-- C1 as stated fails: `overflowPrimaryMappedLine` is a line `1 + 2 primary mapped (p% ...`
with counts in the range of `int`; the switch files it under `primary mapped`, but the
percentage is beyond binary64, and the pass of the loop body ends the process instead of
setting `PrimaryMapped = (1, 2)`: no record is returned. -/
theorem scanFlagstat_primary_mapped_overflow :
    firstCase (TrimSpace overflowPrimaryMappedLine) = some .primaryMapped ∧
    loopBody 1 (overflowPrimaryMappedLine, none) {} [] =
      .stop (.exited (.sentinel (.percent .rangeErr)) []) ∧
    scanFlagstat 1 ⟨[(overflowPrimaryMappedLine, none)], none⟩ =
      .exited (.sentinel (.percent .rangeErr)) [] := by
  decide

set_option exponentiation.threshold 2000 in
/-- C1, amended: for counts `a`, `b` in the range of `int` and every record, the loop body
of `scanFlagstat` stores a line of an overlapping shape under the most specific category
only: `a + b primary duplicates` sets `PrimaryDuplicates` and leaves `Duplicates` and
`Primary`; `a + b primary mapped (p% ...` with `p = ip.fp` in the range of binary64 sets
`PrimaryMapped` and leaves `Mapped` and `Primary`; `a + b with mate mapped to a different
chr (mapQ>=5)` sets `MateDiffChrMapQ5` and leaves `MateDiffChr`. With `p` beyond the range
of binary64 the pass ends the process with the range error of the percentage; `p` is in
the range exactly when its value is below `2^1024 - 2^970`. -/
theorem scanFlagstat_most_specific (a b : Nat) (ha : (a : Int) ≤ maxInt) (hb : (b : Int) ≤ maxInt)
    (f : Flagstat) (ws : List Str) (fuel : Nat) :
    (∃ g, loopBody (fuel + 1) (countLine a b " primary duplicates".toList, none) f ws = .next g ws ∧
      g.PrimaryDuplicates = ((a : Int), (b : Int)) ∧ g.Duplicates = f.Duplicates ∧
      g.Primary = f.Primary) ∧
    (∀ ip fp s : Str, IsDigits ip → IsDigits fp → InF64Range ip fp →
      ∃ g, loopBody (fuel + 1)
          (countLine a b (" primary mapped (".toList ++ (ip ++ '.' :: (fp ++ '%' :: s))), none) f ws
          = .next g ws ∧
        g.PrimaryMapped = ((a : Int), (b : Int)) ∧ g.Mapped = f.Mapped ∧ g.Primary = f.Primary) ∧
    (∃ g, loopBody (fuel + 1)
        (countLine a b " with mate mapped to a different chr (mapQ>=5)".toList, none) f ws
        = .next g ws ∧
      g.MateDiffChrMapQ5 = ((a : Int), (b : Int)) ∧ g.MateDiffChr = f.MateDiffChr) ∧
    (∀ ip fp s : Str, IsDigits ip → IsDigits fp → ¬ InF64Range ip fp →
      loopBody (fuel + 1)
          (countLine a b (" primary mapped (".toList ++ (ip ++ '.' :: (fp ++ '%' :: s))), none) f ws
        = .stop (.exited (.sentinel (.percent .rangeErr)) ws)) ∧
    (∀ ip fp : Str,
      InF64Range ip fp ↔ decVal (ip ++ fp) < (2 ^ 1024 - 2 ^ 970) * 10 ^ fp.length) := by
  refine ⟨?_, ?_, ?_, ?_, inF64Range_iff⟩
  · have htrim : TrimSpace (countLine a b " primary duplicates".toList) =
        countLine a b " primary duplicates".toList :=
      TrimSpace_countLine a b " primary duplicate".toList 's' (by decide) []
    obtain ⟨hm, hp⟩ := parse_countLine_twoCount .primaryDup a b ha hb
      " primary duplicates".toList [] (noDigitAhead_space _)
      (matchToks_open " primary duplicates".toList [])
    refine ⟨_, loopBody_of_parse fuel f ws _ .primaryDup _ _ (by rw [htrim]; exact hm)
      (by rw [htrim]; exact hp), rfl, rfl, rfl⟩
  · intro ip fp s hi hf hrange
    have htrim := TrimSpace_countLine a b (" primary mapped (".toList ++ (ip ++ '.' :: fp)) '%'
      (by decide) s
    simp only [List.append_assoc, List.cons_append] at htrim
    obtain ⟨hm, hp⟩ := parse_countLine_percent .primaryMapped a b ha hb
      (" primary mapped (".toList ++ (ip ++ '.' :: (fp ++ '%' :: trimRight s))) (trimRight s)
      ip fp (noDigitAhead_space _) hi hf hrange
      (matchToks_percent " primary mapped (".toList ip fp (trimRight s) hi hf)
    refine ⟨_, loopBody_of_parse fuel f ws _ .primaryMapped _ _ (by rw [htrim]; exact hm)
      (by rw [htrim]; exact hp), rfl, rfl, rfl⟩
  · have htrim : TrimSpace (countLine a b " with mate mapped to a different chr (mapQ>=5)".toList) =
        countLine a b " with mate mapped to a different chr (mapQ>=5)".toList :=
      TrimSpace_countLine a b " with mate mapped to a different chr (mapQ>=5".toList ')'
        (by decide) []
    obtain ⟨hm, hp⟩ := parse_countLine_twoCount .mateDiffChrMapQ5 a b ha hb
      " with mate mapped to a different chr (mapQ>=5)".toList [] (noDigitAhead_space _)
      (matchToks_open " with mate mapped to a different chr (mapQ>=5)".toList [])
    refine ⟨_, loopBody_of_parse fuel f ws _ .mateDiffChrMapQ5 _ _ (by rw [htrim]; exact hm)
      (by rw [htrim]; exact hp), rfl, rfl⟩
  · intro ip fp s hi hf hrange
    have htrim := TrimSpace_countLine a b (" primary mapped (".toList ++ (ip ++ '.' :: fp)) '%'
      (by decide) s
    simp only [List.append_assoc, List.cons_append] at htrim
    obtain ⟨hm, hp⟩ := parse_countLine_percent_overflow .primaryMapped a b ha hb
      (" primary mapped (".toList ++ (ip ++ '.' :: (fp ++ '%' :: trimRight s))) (trimRight s)
      ip fp (noDigitAhead_space _) hi hf hrange
      (matchToks_percent " primary mapped (".toList ip fp (trimRight s) hi hf)
    exact loopBody_of_parse_error fuel f ws _ .primaryMapped _ (by rw [htrim]; exact hm)
      (by rw [htrim, hp])

set_option maxRecDepth 1000000 in
set_option exponentiation.threshold 2000 in
/-- Instance of the amended C1 at the counts `7` and `2`, the percentage `90.00`, a
percentage of `2` followed by 309 zeros, and an empty record. -/
theorem scanFlagstat_most_specific_witness :
    ((7 : Nat) : Int) ≤ maxInt ∧ ((2 : Nat) : Int) ≤ maxInt ∧
    IsDigits "90".toList ∧ IsDigits "00".toList ∧ InF64Range "90".toList "00".toList ∧
    (∃ g, loopBody 1 ("7 + 2 primary duplicates".toList, none) {} [] = .next g [] ∧
      g.PrimaryDuplicates = (7, 2) ∧ g.Duplicates = (0, 0) ∧ g.Primary = (0, 0)) ∧
    (∃ g, loopBody 1 ("7 + 2 primary mapped (90.00% : N/A)".toList, none) {} [] = .next g [] ∧
      g.PrimaryMapped = (7, 2) ∧ g.Mapped = (0, 0) ∧ g.Primary = (0, 0)) ∧
    IsDigits ('2' :: List.replicate 309 '0') ∧ IsDigits "0".toList ∧
    ¬ InF64Range ('2' :: List.replicate 309 '0') "0".toList ∧
    loopBody 1 (countLine 7 2 (" primary mapped (".toList ++
        (('2' :: List.replicate 309 '0') ++ '.' :: ("0".toList ++ '%' :: " : N/A)".toList))), none)
      {} [] = .stop (.exited (.sentinel (.percent .rangeErr)) []) :=
  ⟨by decide, by decide, ⟨by decide, by decide⟩, ⟨by decide, by decide⟩, by decide,
    (scanFlagstat_most_specific 7 2 (by decide) (by decide) {} [] 0).1,
    (scanFlagstat_most_specific 7 2 (by decide) (by decide) {} [] 0).2.1 "90".toList "00".toList
      " : N/A)".toList ⟨by decide, by decide⟩ ⟨by decide, by decide⟩ (by decide),
    ⟨by decide, by decide⟩, ⟨by decide, by decide⟩, by decide,
    (scanFlagstat_most_specific 7 2 (by decide) (by decide) {} [] 0).2.2.2.1
      ('2' :: List.replicate 309 '0') "0".toList " : N/A)".toList ⟨by decide, by decide⟩
      ⟨by decide, by decide⟩ (by decide)⟩

/-! ## The loop over recognised lines -/

theorem assign_Input (c : Category) (f : Flagstat) (v : Int × Int) (p : F64) :
    (assign c f v p).Input = f.Input := by
  cases c <;> rfl

theorem stored_Input (c : Category) (f : Flagstat) (line : Str) (v : Int × Int) (p : F64) :
    (stored c f line v p).Input = f.Input ++ (line ++ ['\n']) := by
  simp [stored, assign_Input]

theorem stored_pppmp (c : Category) (f : Flagstat) (line : Str) (v : Int × Int) (p : F64) :
    (stored c f line v p).pppmp = pppmpOf (stored c f line v p) := by
  cases c <;> rfl

theorem loopBody_recognised (fuel : Nat) (f : Flagstat) (ws : List Str)
    (tok : Str × Option ScanError) (h : Recognised tok) :
    ∃ c v p, MatchString (patterns c) (TrimSpace tok.1) = true ∧
      parseFlagstatLine (TrimSpace tok.1) (patterns c) = (v, p, none) ∧
      loopBody (fuel + 1) tok f ws = .next (stored c f (TrimSpace tok.1) v p) ws := by
  obtain ⟨text, err⟩ := tok
  obtain ⟨he, c, hm, hp⟩ := h
  simp only at he hm hp
  subst he
  refine ⟨c, (parseFlagstatLine (TrimSpace text) (patterns c)).1,
    (parseFlagstatLine (TrimSpace text) (patterns c)).2.1, hm, ?_, ?_⟩
  · rw [← hp]
  · exact loopBody_of_parse fuel f ws text c _ _ hm (by rw [← hp])

/-- On recognised lines the loop returns, for any positive fuel, a record whose `Input` is
the old one followed by the trimmed lines, and whose `pppmp` is the ratio of the final
counts as soon as one line was read. -/
theorem scanLoop_recognised (fuel : Nat) (tokens : List (Str × Option ScanError))
    (h : ∀ tok ∈ tokens, Recognised tok) (f : Flagstat) (ws : List Str) :
    ∃ g, scanLoop (fuel + 1) tokens f ws = .returned g none ws ∧
      g.Input = f.Input ++ inputText tokens ∧ (tokens ≠ [] → g.pppmp = pppmpOf g) := by
  induction tokens generalizing f with
  | nil => exact ⟨f, rfl, by simp [inputText], fun h => absurd rfl h⟩
  | cons tok rest ih =>
    obtain ⟨c, v, p, -, -, hb⟩ := loopBody_recognised fuel f ws tok
      (h tok (List.mem_cons_self _ _))
    obtain ⟨g, hg, hin, hpp⟩ := ih (fun t ht => h t (List.mem_cons_of_mem _ ht))
      (stored c f (TrimSpace tok.1) v p)
    refine ⟨g, ?_, ?_, ?_⟩
    · simp only [scanLoop, hb]; exact hg
    · rw [hin, stored_Input]; simp [inputText]
    · intro _
      cases rest with
      | nil =>
        simp only [scanLoop] at hg
        cases hg
        exact stored_pppmp c f _ v p
      | cons t ts => exact hpp (by simp)

/-! ## C2: a line that matches no pattern -/

theorem switchTry2_unmatched (fuel : Nat) (f : Flagstat) (line : Str) (ws : List Str)
    (h : firstCase line = none) : switchTry2 fuel f line ws = none := by
  induction fuel generalizing ws with
  | zero => rfl
  | succ n ih => simp only [switchTry2, h]; exact ih _

theorem loopBody_unmatched (fuel : Nat) (f : Flagstat) (ws : List Str)
    (tok : Str × Option ScanError) (h : firstCase (TrimSpace tok.1) = none) :
    loopBody fuel tok f ws = .stop .outOfFuel := by
  simp [loopBody, switchTry2_unmatched fuel _ _ ws h]

/-- Recognised lines followed by a line that matches no pattern: the loop never gets past
that line, whatever the fuel and whatever follows. -/
theorem scanLoop_unmatched (fuel : Nat) (pre : List (Str × Option ScanError))
    (tok : Str × Option ScanError) (rest : List (Str × Option ScanError))
    (hpre : ∀ t ∈ pre, Recognised t) (h : firstCase (TrimSpace tok.1) = none)
    (f : Flagstat) (ws : List Str) :
    scanLoop fuel (pre ++ tok :: rest) f ws = .outOfFuel := by
  cases fuel with
  | zero =>
    cases pre with
    | nil => simp [scanLoop, loopBody_unmatched 0 f ws tok h]
    | cons t ts => simp [scanLoop, loopBody, switchTry2]
  | succ n =>
    induction pre generalizing f with
    | nil => simp [scanLoop, loopBody_unmatched (n + 1) f ws tok h]
    | cons t ts ih =>
      obtain ⟨c, v, p, -, -, hb⟩ := loopBody_recognised n f ws t (hpre t (List.mem_cons_self _ _))
      simp only [List.cons_append, scanLoop, hb]
      exact ih (fun x hx => hpre x (List.mem_cons_of_mem _ hx)) _

set_option maxRecDepth 100000 in
/-- C2: on an input with a line that matches no pattern `scanFlagstat` does not terminate.
With a garbage line between two valid lines, and with a single blank line, no amount of
fuel yields a result; every jump back to `switchTry2` finds the same line, warns again and
jumps again; without the garbage line the same input returns at once. -/
theorem scanFlagstat_unmatched_line_never_returns :
    (∀ fuel, scanFlagstat fuel
      ⟨[("1000 + 0 in total".toList, none), ("garbage".toList, none),
        ("950 + 0 primary".toList, none)], none⟩ = .outOfFuel) ∧
    (∀ fuel, scanFlagstat fuel ⟨[([], none)], none⟩ = .outOfFuel) ∧
    (∀ fuel f ws, switchTry2 (fuel + 1) f "garbage".toList ws =
      switchTry2 fuel f "garbage".toList (ws ++ ["garbage".toList])) ∧
    scanFlagstat 1 ⟨[("1000 + 0 in total".toList, none), ("950 + 0 primary".toList, none)], none⟩ =
      .returned { Input := "1000 + 0 in total\n950 + 0 primary\n".toList, Total := (1000, 0),
                  Primary := (950, 0), pppmp := .nan } none [] := by
  refine ⟨?_, ?_, ?_, by decide⟩
  · intro fuel
    exact scanLoop_unmatched fuel [("1000 + 0 in total".toList, none)] ("garbage".toList, none)
      [("950 + 0 primary".toList, none)]
      (fun t ht => by
        rw [List.mem_singleton.mp ht]
        exact ⟨rfl, .total, by decide, by decide⟩)
      (by decide) {} []
  · intro fuel
    exact scanLoop_unmatched fuel [] ([], none) [] (fun t ht => by simp at ht) (by decide) {} []
  · intro fuel f ws
    have h : firstCase "garbage".toList = none := by decide
    simp only [switchTry2, h]

/-! ## C5: the derived field on the empty input -/

set_option maxRecDepth 100000 in
/-- C5: on the empty input `scanFlagstat` returns a record whose `pppmp` is the zero value,
although `PrimaryMapped[0]` is `0` and the ratio of the final counts is not-a-number: the
assignment stands inside the loop and the loop body never ran. -/
theorem scanFlagstat_empty_input_pppmp :
    ∀ fuel, ∃ f, scanFlagstat fuel ⟨[], none⟩ = .returned f none [] ∧ f.PrimaryMapped.1 = 0 ∧
      f.pppmp = F64.zero ∧ F64.zero.isFinite = true ∧ pppmpOf f = .nan ∧ f.pppmp ≠ pppmpOf f := by
  intro fuel
  exact ⟨{}, rfl, rfl, rfl, rfl, by decide, by decide⟩

/-! ## C8: the error of the scanner -/

set_option maxRecDepth 100000 in
/-- C8: the error with which the scanner stopped is never looked at: `scanFlagstat` returns
the same result as on an input that ended normally, a record and a nil error, also when
the scanner stopped on an over-long line. -/
theorem scanFlagstat_ignores_final_error :
    (∀ fuel tokens e, scanFlagstat fuel ⟨tokens, some e⟩ = scanFlagstat fuel ⟨tokens, none⟩) ∧
    scanFlagstat 1 ⟨[], some .tooLong⟩ = .returned {} none [] ∧
    scanFlagstat 1 ⟨[("950 + 0 primary".toList, none)], some .tooLong⟩ =
      .returned { Input := "950 + 0 primary\n".toList, Primary := (950, 0), pppmp := .nan }
        none [] :=
  ⟨fun _ _ _ => rfl, rfl, by decide⟩

/-! ## C3: the counts of a matching line -/

theorem percentInRange_iff (ip fp : Str) (hi : IsDigits ip) :
    PercentInRange (ip ++ '.' :: fp) ↔ InF64Range ip fp := by
  obtain ⟨-, h1, h2⟩ := isDigits_head_ne ip hi fp '.' (by decide)
  simp [PercentInRange, h1, h2]

set_option maxRecDepth 1000000 in
set_option exponentiation.threshold 2000 in
/-- C3 as stated fails: `overflowLine` matches the `mapped` pattern, its two counts are `1`
and `2`, and `parseFlagstatLine` returns `(0, 0)` and a range error for the percentage. -/
theorem parseFlagstatLine_percent_overflow :
    MatchString (patterns .mapped) overflowLine = true ∧
    (FindStringSubmatch (patterns .mapped) overflowLine).map (fun ms => (ms.getD 1 [], ms.getD 2 []))
      = some ("1".toList, "2".toList) ∧
    parseFlagstatLine overflowLine (patterns .mapped) =
      ((0, 0), F64.zero, some (.percent .rangeErr)) := by
  decide

set_option exponentiation.threshold 2000 in
/-- C3, amended: for each of the sixteen patterns and every line that matches it, when the
two captured digit runs denote numbers that fit an `int` and, for the four percentage
patterns, the captured percentage is in the range of binary64, `parseFlagstatLine` returns
the values of the two digit runs and a nil error; in particular the switch stores
`Total = (a, b)` for `a + b in total` followed by any text. A captured percentage `ip.fp`
is in the range of binary64 exactly when its value is below `2^1024 - 2^970`. -/
theorem parseFlagstatLine_counts :
    (∀ (c : Category) (line : Str) (ms : List Str),
      FindStringSubmatch (patterns c) line = some ms →
      (decVal (ms.getD 1 []) : Int) ≤ maxInt → (decVal (ms.getD 2 []) : Int) ≤ maxInt →
      (hasPercent c = true → PercentInRange (ms.getD 3 [])) →
      (parseFlagstatLine line (patterns c)).1 =
        ((decVal (ms.getD 1 []) : Int), (decVal (ms.getD 2 []) : Int)) ∧
      (parseFlagstatLine line (patterns c)).2.2 = none) ∧
    (∀ (a b : Nat) (s : Str) (f : Flagstat) (ws : List Str) (fuel : Nat),
      (a : Int) ≤ maxInt → (b : Int) ≤ maxInt →
      switchTry2 (fuel + 1) f (countLine a b (" in total".toList ++ s)) ws =
        some ({ f with Total := ((a : Int), (b : Int)) }, none, ws)) ∧
    (∀ ip fp : Str, IsDigits ip →
      (PercentInRange (ip ++ '.' :: fp) ↔
        decVal (ip ++ fp) < (2 ^ 1024 - 2 ^ 970) * 10 ^ fp.length)) := by
  refine ⟨?_, ?_, fun ip fp hi => (percentInRange_iff ip fp hi).trans (inF64Range_iff ip fp)⟩
  · intro c line ms hm ha hb hp
    obtain ⟨full, d1, d2, tc, rfl, hd1, hd2, h2c, hpc⟩ := FindStringSubmatch_shape c line ms hm
    simp only [List.getD_cons_succ, List.getD_cons_zero] at ha hb hp ⊢
    rw [parse_of_submatch line _ full d1 d2 tc hm hd1 hd2, if_neg (not_lt.mpr ha),
      if_neg (not_lt.mpr hb)]
    cases hc : hasPercent c with
    | false => rw [h2c hc]; exact ⟨rfl, rfl⟩
    | true =>
      obtain ⟨ip, fp, rfl, hi, hf⟩ := hpc hc
      have hr : InF64Range ip fp := (percentInRange_iff ip fp hi).mp (by simpa using hp hc)
      simp [ParseFloat_inRange ip fp hi hf hr]
  · intro a b s f ws fuel ha hb
    obtain ⟨hm, hp⟩ := parse_countLine_twoCount .total a b ha hb (" in total".toList ++ s) s
      (noDigitAhead_space _) (matchToks_open " in total".toList s)
    rw [switchTry2_of_match fuel f _ ws .total hm, hp]
    rfl

set_option maxRecDepth 100000 in
/-- Instance of the amended C3 at the line `900 + 0 mapped (90.00% : N/A)` and at
`1000 + 0 in total (QC-passed reads + QC-failed reads)`. -/
theorem parseFlagstatLine_counts_witness :
    FindStringSubmatch (patterns .mapped) "900 + 0 mapped (90.00% : N/A)".toList =
      some ["900 + 0 mapped (90.00%".toList, "900".toList, "0".toList, "90.00".toList] ∧
    PercentInRange "90.00".toList ∧
    (parseFlagstatLine "900 + 0 mapped (90.00% : N/A)".toList (patterns .mapped)).1 = (900, 0) ∧
    (parseFlagstatLine "900 + 0 mapped (90.00% : N/A)".toList (patterns .mapped)).2.2 = none ∧
    switchTry2 1 {} "1000 + 0 in total (QC-passed reads + QC-failed reads)".toList [] =
      some ({ Total := (1000, 0) }, none, []) :=
  ⟨by decide, by unfold PercentInRange; decide,
    (parseFlagstatLine_counts.1 .mapped "900 + 0 mapped (90.00% : N/A)".toList
      ["900 + 0 mapped (90.00%".toList, "900".toList, "0".toList, "90.00".toList]
      (by decide) (by decide) (by decide) (fun _ => by unfold PercentInRange; decide)).1,
    (parseFlagstatLine_counts.1 .mapped "900 + 0 mapped (90.00% : N/A)".toList
      ["900 + 0 mapped (90.00%".toList, "900".toList, "0".toList, "90.00".toList]
      (by decide) (by decide) (by decide) (fun _ => by unfold PercentInRange; decide)).2,
    parseFlagstatLine_counts.2.1 1000 0 " (QC-passed reads + QC-failed reads)".toList {} [] 0
      (by decide) (by decide)⟩

/-! ## C7: the patterns exclude one another -/

/-- C7: no line matches more than one of the sixteen patterns, so the case chosen by the
switch is the same for every order in which the sixteen cases are tried. Matching is meant
in the sense of the regular expressions: `MatchString` on a pattern of the table holds
exactly when the line splits into the texts of the tokens of the pattern. -/
theorem patterns_mutually_exclusive :
    (∀ (line : Str) (c1 c2 : Category), MatchString (patterns c1) line = true →
      MatchString (patterns c2) line = true → c1 = c2) ∧
    (∀ (line : Str) (order : List Category), order.Perm caseOrder →
      order.find? (fun c => MatchString (patterns c) line) = firstCase line) ∧
    (∀ (line : Str) (c : Category),
      MatchString (patterns c) line = true ↔ ∃ caps rest, Matches (patterns c) line caps rest) := by
  refine ⟨patterns_exclusive, ?_, fun line c => MatchString_iff_matches c line⟩
  intro line order hperm
  cases h : firstCase line with
  | none =>
    rw [List.find?_eq_none]
    intro c _
    simp [(firstCase_eq_none_iff line).mp h c]
  | some c =>
    exact find_of_exclusive line order c (hperm.mem_iff.mpr (mem_caseOrder c))
      ((firstCase_eq_some_iff line c).mp h)

set_option maxRecDepth 100000 in
/-- Instance of C7 at the line `7 + 2 primary duplicates` and the reversed case order. -/
theorem patterns_mutually_exclusive_witness :
    MatchString (patterns .primaryDup) "7 + 2 primary duplicates".toList = true ∧
    caseOrder.reverse.Perm caseOrder ∧
    caseOrder.reverse.find? (fun c => MatchString (patterns c) "7 + 2 primary duplicates".toList)
      = firstCase "7 + 2 primary duplicates".toList ∧
    firstCase "7 + 2 primary duplicates".toList = some .primaryDup :=
  ⟨by decide, List.reverse_perm _,
    patterns_mutually_exclusive.2.1 _ _ (List.reverse_perm _),
    by rw [patterns_mutually_exclusive.1 "7 + 2 primary duplicates".toList .primaryDup .primaryDup
      (by decide) (by decide)]; decide⟩

/-! ## C9: errors of `parseFlagstatLine` -/

/-- C9: for a two-count pattern `parseFlagstatLine` returns an error exactly when the line
does not match or a captured digit run is beyond the range of `int`; with an error it
returns the counts `(0, 0)` and the percentage `0`; and the loop of `scanFlagstat` ends the
process on that error, whatever lines follow. -/
theorem parseFlagstatLine_error (c : Category) (hc : hasPercent c = false) (line : Str) :
    ((parseFlagstatLine line (patterns c)).2.2 ≠ none ↔
      (FindStringSubmatch (patterns c) line = none ∨
        ∃ ms, FindStringSubmatch (patterns c) line = some ms ∧
          (maxInt < (decVal (ms.getD 1 []) : Int) ∨ maxInt < (decVal (ms.getD 2 []) : Int)))) ∧
    ((parseFlagstatLine line (patterns c)).2.2 ≠ none →
      (parseFlagstatLine line (patterns c)).1 = (0, 0) ∧
      (parseFlagstatLine line (patterns c)).2.1 = F64.zero) ∧
    (∀ (fuel : Nat) (tok : Str × Option ScanError) (rest : List (Str × Option ScanError))
      (f : Flagstat) (ws : List Str) (e : LineError), TrimSpace tok.1 = line →
      MatchString (patterns c) line = true → (parseFlagstatLine line (patterns c)).2.2 = some e →
      scanLoop (fuel + 1) (tok :: rest) f ws = .exited (.sentinel e) ws) := by
  have key : ∀ ms, FindStringSubmatch (patterns c) line = some ms →
      parseFlagstatLine line (patterns c) =
        if maxInt < (decVal (ms.getD 1 []) : Int) then ((0, 0), F64.zero, some (.firstInt .rangeErr))
        else if maxInt < (decVal (ms.getD 2 []) : Int) then
          ((0, 0), F64.zero, some (.secondInt .rangeErr))
        else (((decVal (ms.getD 1 []) : Int), (decVal (ms.getD 2 []) : Int)), F64.zero, none) := by
    intro ms hm
    obtain ⟨full, d1, d2, tc, rfl, hd1, hd2, h2c, -⟩ := FindStringSubmatch_shape c line ms hm
    have htc := h2c hc
    subst htc
    rw [parse_of_submatch line _ full d1 d2 [] hm hd1 hd2]
    rfl
  refine ⟨?_, ?_, ?_⟩
  · cases hm : FindStringSubmatch (patterns c) line with
    | none => simp [parse_noMatch line _ hm]
    | some ms =>
      rw [key ms hm]
      by_cases h1 : maxInt < (decVal (ms.getD 1 []) : Int)
      · rw [if_pos h1]
        exact ⟨fun _ => Or.inr ⟨ms, rfl, Or.inl h1⟩, fun _ => Option.some_ne_none _⟩
      · rw [if_neg h1]
        by_cases h2 : maxInt < (decVal (ms.getD 2 []) : Int)
        · rw [if_pos h2]
          exact ⟨fun _ => Or.inr ⟨ms, rfl, Or.inr h2⟩, fun _ => Option.some_ne_none _⟩
        · rw [if_neg h2]
          constructor
          · intro h; exact absurd rfl h
          · rintro (h | ⟨ms2, hms, h | h⟩)
            · cases h
            · cases hms; exact absurd h h1
            · cases hms; exact absurd h h2
  · intro herr
    cases hm : FindStringSubmatch (patterns c) line with
    | none => simp [parse_noMatch line _ hm]
    | some ms =>
      rw [key ms hm] at herr ⊢
      by_cases h1 : maxInt < (decVal (ms.getD 1 []) : Int)
      · rw [if_pos h1]; exact ⟨rfl, rfl⟩
      · rw [if_neg h1] at herr ⊢
        by_cases h2 : maxInt < (decVal (ms.getD 2 []) : Int)
        · rw [if_pos h2]; exact ⟨rfl, rfl⟩
        · rw [if_neg h2] at herr; exact absurd rfl herr
  · intro fuel tok rest f ws e htrim hm he
    subst htrim
    simp only [scanLoop, loopBody_of_parse_error fuel f ws tok c e hm he]

set_option maxRecDepth 100000 in
/-- Instance of C9 at the line `99999999999999999999 + 0 primary`, whose first count is
beyond the range of `int`. -/
theorem parseFlagstatLine_error_witness :
    hasPercent .primary = false ∧
    MatchString (patterns .primary) "99999999999999999999 + 0 primary".toList = true ∧
    (parseFlagstatLine "99999999999999999999 + 0 primary".toList (patterns .primary)).2.2 =
      some (.firstInt .rangeErr) ∧
    (parseFlagstatLine "99999999999999999999 + 0 primary".toList (patterns .primary)).1 = (0, 0) ∧
    scanLoop 1 [("99999999999999999999 + 0 primary".toList, none), ("1 + 1 read1".toList, none)]
      {} [] = .exited (.sentinel (.firstInt .rangeErr)) [] :=
  ⟨by decide, by decide, by decide,
    ((parseFlagstatLine_error .primary (by decide)
      "99999999999999999999 + 0 primary".toList).2.1 (by decide)).1,
    (parseFlagstatLine_error .primary (by decide) "99999999999999999999 + 0 primary".toList).2.2
      0 ("99999999999999999999 + 0 primary".toList, none) [("1 + 1 read1".toList, none)] {} []
      (.firstInt .rangeErr) (by decide) (by decide) (by decide)⟩

/-! ## C10: the field `Input` -/

set_option maxRecDepth 100000 in
/-- C10 as stated fails: the line ` 950 + 0 primary`, read with a leading blank, is
recognised, and `Input` holds it without the blank and with a line feed, which is neither
the line as it was read nor that line followed by a line feed. -/
theorem scanFlagstat_Input_not_verbatim :
    ∃ f, scanFlagstat 1 ⟨[(" 950 + 0 primary".toList, none)], none⟩ = .returned f none [] ∧
      f.Primary = (950, 0) ∧ f.Input = "950 + 0 primary\n".toList ∧
      f.Input ≠ " 950 + 0 primary".toList ∧ f.Input ≠ " 950 + 0 primary\n".toList :=
  ⟨{ Input := "950 + 0 primary\n".toList, Primary := (950, 0), pppmp := .nan },
    by decide, rfl, rfl, by decide, by decide⟩

/-- C10, amended: for every input of recognised lines and any positive fuel `scanFlagstat`
returns a record whose `Input` is the concatenation, in input order, of the lines with
their surrounding white space trimmed, each followed by a line feed. -/
theorem scanFlagstat_Input (fuel : Nat) (tokens : List (Str × Option ScanError))
    (finalErr : Option ScanError) (h : ∀ tok ∈ tokens, Recognised tok) :
    ∃ f, scanFlagstat (fuel + 1) ⟨tokens, finalErr⟩ = .returned f none [] ∧
      f.Input = (tokens.map fun tok => TrimSpace tok.1 ++ ['\n']).flatten := by
  obtain ⟨g, hg, hin, -⟩ := scanLoop_recognised fuel tokens h {} []
  exact ⟨g, hg, by simpa [inputText] using hin⟩

set_option maxRecDepth 100000 in
/-- Instance of the amended C10 at the two lines ` 950 + 0 primary ` and `1 + 1 read1`. -/
theorem scanFlagstat_Input_witness :
    (∀ tok ∈ [(" 950 + 0 primary ".toList, (none : Option ScanError)), ("1 + 1 read1".toList, none)],
      Recognised tok) ∧
    ∃ f, scanFlagstat 1 ⟨[(" 950 + 0 primary ".toList, none), ("1 + 1 read1".toList, none)], none⟩
        = .returned f none [] ∧
      f.Input = "950 + 0 primary\n1 + 1 read1\n".toList := by
  have h : ∀ tok ∈ [(" 950 + 0 primary ".toList, (none : Option ScanError)),
      ("1 + 1 read1".toList, none)], Recognised tok := by
    intro tok ht
    simp only [List.mem_cons, List.mem_singleton, List.not_mem_nil, or_false] at ht
    rcases ht with rfl | rfl
    · exact ⟨rfl, .primary, by decide, by decide⟩
    · exact ⟨rfl, .read1, by decide, by decide⟩
  obtain ⟨f, hf, hin⟩ := scanFlagstat_Input 0 _ none h
  exact ⟨h, f, hf, by rw [hin]; decide⟩

/-! ## Arithmetic on `int` -/

theorem wrapInt_of_inRange (x : Int) (h : InIntRange x) : wrapInt x = x := by
  obtain ⟨h1, h2⟩ := h
  simp only [minInt, maxInt] at h1 h2
  simp only [wrapInt]
  norm_num at h1 h2 ⊢
  omega

theorem intSub_intSub (x c d : Int) : intSub (intSub x c) d = intSub x (intAdd c d) := by
  simp only [intSub, intAdd, wrapInt]
  norm_num
  omega

/-! ## The parts of the report -/

theorem generateReport_Output (f : Flagstat) :
    (generateReport f).Output =
      "Report\n".toList ++ (readCountText f ++ (qcText f ++ (mappedText f ++
        (unmappedText f ++ svText f)))) := by
  simp only [generateReport, readCountText, qcText, mappedText, unmappedText, svText]
  split
  · split <;> simp only [List.append_assoc]
  · simp only [List.append_assoc, List.nil_append]

/-! ## C6: the unmapped reads of the report -/

set_option maxRecDepth 100000 in
set_option exponentiation.threshold 2000 in
/-- C6: the integer that `generateReport` prints in front of ` unmapped include` is
`(PairedInSeq[0] + PairedInSeq[1]) - (PrimaryMapped[0] + PrimaryMapped[1])` in the signed
arithmetic of `int`, which is that difference itself whenever the sums and the difference
are in the range of `int` (it may be negative); it is followed by `Singletons[0]`. For the
nine-line end-to-end input the line is `50 unmapped include 10 singletons`. -/
theorem generateReport_unmapped (f : Flagstat) :
    (∃ pre post, (generateReport f).Output =
        pre ++ (fmtInt (intSub (intAdd f.PairedInSeq.1 f.PairedInSeq.2)
            (intAdd f.PrimaryMapped.1 f.PrimaryMapped.2))
          ++ " unmapped include ".toList ++ fmtInt f.Singletons.1 ++ " singletons\n".toList) ++ post ∧
        " additional secondary alignments have been recorded.\n".toList <:+ pre ∧
        "Structural variation evidence in ".toList <+: post) ∧
    (InIntRange (f.PairedInSeq.1 + f.PairedInSeq.2) →
      InIntRange (f.PrimaryMapped.1 + f.PrimaryMapped.2) →
      InIntRange (f.PairedInSeq.1 + f.PairedInSeq.2 - (f.PrimaryMapped.1 + f.PrimaryMapped.2)) →
      intSub (intAdd f.PairedInSeq.1 f.PairedInSeq.2) (intAdd f.PrimaryMapped.1 f.PrimaryMapped.2)
        = f.PairedInSeq.1 + f.PairedInSeq.2 - (f.PrimaryMapped.1 + f.PrimaryMapped.2)) ∧
    (∃ g, scanFlagstat 1 endToEndInput = .returned g none [] ∧
      ∃ pre post, (generateReport g).Output =
        pre ++ "\n50 unmapped include 10 singletons\n".toList ++ post) := by
  refine ⟨?_, ?_, ?_⟩
  · refine ⟨"Report\n".toList ++ (readCountText f ++ (qcText f ++ mappedText f)), svText f,
      ?_, ?_, ?_⟩
    · rw [generateReport_Output, unmappedText, intSub_intSub]
      simp only [List.append_assoc]
    · exact ⟨"Report\n".toList ++ (readCountText f ++ (qcText f ++
        (fmtF2 f.PrimaryMappedPercent ++ "% reads (".toList
          ++ fmtInt f.PrimaryMapped.1 ++ ") are primarily mapped of which ".toList ++ fmtF2 f.pppmp
          ++ "% (".toList ++ fmtInt f.ProperlyPaired.1
          ++ ") are aligned and spaced as expected;. ".toList
          ++ fmtInt (intAdd f.Secondary.1 f.Secondary.2)))),
        by simp only [mappedText, List.append_assoc]⟩
    · exact ⟨_, rfl⟩
  · intro h1 h2 h3
    rw [intAdd, intAdd, intSub, wrapInt_of_inRange _ h1, wrapInt_of_inRange _ h2,
      wrapInt_of_inRange _ h3]
  · refine ⟨_, rfl, ?_⟩
    exact ⟨("Report\nQC fail fraction: 0.00%. Only passing used for counts in this report.\n" ++
        "90.00% reads (900) are primarily mapped of which 88.89% (800) are aligned and " ++
        "spaced as expected;. 0 additional secondary alignments have been recorded.").toList,
      ("Structural variation evidence in 5 reads where mates mapped to a different chr of " ++
        "which 40.00% (2) are high quality mappings. 0 Supplementary mappings could also " ++
        "indicate SV\n").toList, by decide⟩

/-- Instance of C6 at a record with `PrimaryMapped = (5, 0)` and no paired reads, where the
printed integer is negative. -/
theorem generateReport_unmapped_witness :
    InIntRange ((0 : Int) + 0) ∧ InIntRange ((5 : Int) + 0) ∧ InIntRange ((0 : Int) + 0 - (5 + 0)) ∧
    intSub (intAdd 0 0) (intAdd 5 0) = 0 + 0 - (5 + 0) ∧
    fmtInt (0 + 0 - (5 + 0)) = "-5".toList :=
  ⟨by decide, by decide, by decide,
    (generateReport_unmapped { PrimaryMapped := (5, 0) }).2.1 (by decide) (by decide) (by decide),
    by decide⟩

/-! ## Texts that cannot occur in the report -/

theorem pairScan_append (x y : Char) (p : Bool) (u v : Str) :
    pairScan x y p (u ++ v) = (pairScan x y p u).bind fun q => pairScan x y q v := by
  induction u generalizing p with
  | nil => rfl
  | cons c t ih =>
    simp only [List.cons_append, pairScan]
    split
    · rfl
    · exact ih _

theorem pairScan_mono (x y : Char) (p : Bool) (u : Str) (h : pairScan x y false u = none) :
    pairScan x y p u = none := by
  cases u with
  | nil => simp [pairScan] at h
  | cons c t =>
    simp only [pairScan, Bool.false_and] at h ⊢
    split
    · rfl
    · simpa using h

theorem pairScan_infix (x y : Char) (pat text : Str) (hp : pairScan x y false pat = none)
    (h : pat <:+: text) : pairScan x y false text = none := by
  obtain ⟨pre, suf, rfl⟩ := h
  rw [pairScan_append, pairScan_append]
  cases pairScan x y false pre with
  | none => rfl
  | some q => simp [pairScan_mono x y q pat hp]

theorem clean_append (x y : Char) (u v : Str) (hu : Clean x y u) (hv : Clean x y v) :
    Clean x y (u ++ v) := by
  unfold Clean at *
  rw [pairScan_append, hu]
  exact hv

theorem clean_numeric (x y : Char) (hx : isNumChar x = false) (u : Str)
    (h : ∀ c ∈ u, isNumChar c = true) : Clean x y u := by
  unfold Clean
  induction u with
  | nil => rfl
  | cons c t ih =>
    have hc : (c == x) = false := by
      rw [beq_eq_false_iff_ne]
      rintro rfl
      rw [h c (List.mem_cons_self _ _)] at hx
      cases hx
    simp only [pairScan, Bool.false_and, hc]
    exact ih (fun d hd => h d (List.mem_cons_of_mem _ hd))

theorem not_infix_of_clean (x y : Char) (pat text : Str) (hp : pairScan x y false pat = none)
    (ht : Clean x y text) : ¬ pat <:+: text := by
  intro h
  have := pairScan_infix x y pat text hp h
  rw [ht] at this
  cases this

theorem isNumChar_of_isDigit (c : Char) (h : isDigit c = true) : isNumChar c = true := by
  simp [isNumChar, h]

theorem fmtInt_numeric (i : Int) : ∀ c ∈ fmtInt i, isNumChar c = true := by
  intro c hc
  unfold fmtInt at hc
  split at hc
  · rcases List.mem_cons.mp hc with rfl | h
    · decide
    · exact isNumChar_of_isDigit c (fmtNat_digits _ c h)
  · exact isNumChar_of_isDigit c (fmtNat_digits _ c hc)

theorem fmtF2_numeric (v : F64) : ∀ c ∈ fmtF2 v, isNumChar c = true := by
  intro c hc
  cases v with
  | nan => revert c; decide
  | inf s => cases s <;> (revert c; decide)
  | fin s m e =>
    simp only [fmtF2, fmt2, List.mem_append, List.mem_cons, List.mem_singleton] at hc
    rcases hc with (h | h) | rfl | rfl | rfl | h
    · cases s
      · simp at h
      · simp only [if_true, List.mem_singleton] at h; subst h; decide
    · exact isNumChar_of_isDigit c (fmtNat_digits _ c h)
    · decide
    · exact isNumChar_of_isDigit _ (isDigit_digitChar _ (by omega))
    · exact isNumChar_of_isDigit _ (isDigit_digitChar _ (by omega))
    · simp at h

theorem clean_fmtInt (x y : Char) (hx : isNumChar x = false) (i : Int) : Clean x y (fmtInt i) :=
  clean_numeric x y hx _ (fmtInt_numeric i)

theorem clean_fmtF2 (x y : Char) (hx : isNumChar x = false) (v : F64) : Clean x y (fmtF2 v) :=
  clean_numeric x y hx _ (fmtF2_numeric v)

/-- Without the sentence about the read count the report holds neither the pair `ll` nor the
pair `sm`. -/
theorem clean_report (x y : Char) (hx : isNumChar x = false) (f : Flagstat)
    (hxy : (x = 'l' ∧ y = 'l') ∨ (x = 's' ∧ y = 'm')) :
    Clean x y ("Report\n".toList ++ (qcText f ++ (mappedText f ++ (unmappedText f ++ svText f)))) := by
  have lit : ∀ L : Str, (Clean 'l' 'l' L ∧ Clean 's' 'm' L) → Clean x y L := by
    intro L hL
    rcases hxy with ⟨rfl, rfl⟩ | ⟨rfl, rfl⟩
    · exact hL.1
    · exact hL.2
  have ni := clean_fmtInt x y hx
  have nf := clean_fmtF2 x y hx
  have app := clean_append x y
  refine app _ _ (lit _ (by decide)) (app _ _ ?_ (app _ _ ?_ (app _ _ ?_ ?_)))
  · exact app _ _ (app _ _ (lit _ (by decide)) (nf _)) (lit _ (by decide))
  · unfold mappedText
    exact app _ _ (app _ _ (app _ _ (app _ _ (app _ _ (app _ _ (app _ _ (app _ _ (app _ _ (nf _)
      (lit _ (by decide))) (ni _)) (lit _ (by decide))) (nf _)) (lit _ (by decide))) (ni _))
      (lit _ (by decide))) (ni _)) (lit _ (by decide))
  · unfold unmappedText
    exact app _ _ (app _ _ (app _ _ (ni _) (lit _ (by decide))) (ni _)) (lit _ (by decide))
  · unfold svText
    exact app _ _ (app _ _ (app _ _ (app _ _ (app _ _ (app _ _ (app _ _ (app _ _ (lit _ (by decide))
      (ni _)) (lit _ (by decide))) (nf _)) (lit _ (by decide))) (ni _)) (lit _ (by decide))) (ni _))
      (lit _ (by decide))

/-! ## C4: the sentence about the read count -/

/-- C4: for a record with `FastqReadCount = N > 0` the report holds `all reads accounted for`
when `Primary[0] + Primary[1]` (the sum of type `int`) equals `N`, and otherwise the mismatch
message with the decimal renderings of `N` and of that sum; the sum of type `int` is the
sum itself when that is in the range of `int`; and with `FastqReadCount = 0` the report
holds neither sentence. -/
theorem generateReport_read_count (f : Flagstat) :
    (0 < f.FastqReadCount → intAdd f.Primary.1 f.Primary.2 = f.FastqReadCount →
      "all reads accounted for".toList <:+: (generateReport f).Output) ∧
    (0 < f.FastqReadCount → intAdd f.Primary.1 f.Primary.2 ≠ f.FastqReadCount →
      ("Read count mismatch between user provided fastq read count and flagstat: ".toList
        ++ fmtInt f.FastqReadCount ++ " != ".toList ++ fmtInt (intAdd f.Primary.1 f.Primary.2)
        ++ ". ".toList) <:+: (generateReport f).Output) ∧
    (InIntRange (f.Primary.1 + f.Primary.2) →
      intAdd f.Primary.1 f.Primary.2 = f.Primary.1 + f.Primary.2) ∧
    (f.FastqReadCount = 0 →
      ¬ "all reads accounted for".toList <:+: (generateReport f).Output ∧
      ¬ "Read count mismatch".toList <:+: (generateReport f).Output) := by
  refine ⟨?_, ?_, ?_, ?_⟩
  · intro hN heq
    rw [generateReport_Output]
    refine ⟨"Report\n".toList, ". ".toList ++ (qcText f ++ (mappedText f ++
      (unmappedText f ++ svText f))), ?_⟩
    simp only [readCountText, hN, heq, if_true, bne_self_eq_false, Bool.false_eq_true, if_false,
      List.append_assoc]
    rfl
  · intro hN hne
    rw [generateReport_Output]
    refine ⟨"Report\n".toList, qcText f ++ (mappedText f ++ (unmappedText f ++ svText f)), ?_⟩
    have hb : (intAdd f.Primary.1 f.Primary.2 != f.FastqReadCount) = true := by
      simpa using hne
    simp only [readCountText, hN, hb, if_true, List.append_assoc]
  · intro h
    exact wrapInt_of_inRange _ h
  · intro h0
    have hout : (generateReport f).Output =
        "Report\n".toList ++ (qcText f ++ (mappedText f ++ (unmappedText f ++ svText f))) := by
      rw [generateReport_Output]
      simp [readCountText, h0]
    rw [hout]
    exact ⟨not_infix_of_clean 'l' 'l' _ _ (by decide)
        (clean_report 'l' 'l' (by decide) f (Or.inl ⟨rfl, rfl⟩)),
      not_infix_of_clean 's' 'm' _ _ (by decide)
        (clean_report 's' 'm' (by decide) f (Or.inr ⟨rfl, rfl⟩))⟩

set_option maxRecDepth 100000 in
/-- Instance of C4 at records with `Primary = (950, 0)` and the expected counts `950`,
`1000` and `0`. -/
theorem generateReport_read_count_witness :
    "all reads accounted for".toList <:+:
      (generateReport { FastqReadCount := 950, Primary := (950, 0) }).Output ∧
    "Read count mismatch between user provided fastq read count and flagstat: 1000 != 950. ".toList
      <:+: (generateReport { FastqReadCount := 1000, Primary := (950, 0) }).Output ∧
    intAdd 950 0 = 950 + 0 ∧
    ¬ "all reads accounted for".toList <:+: (generateReport { Primary := (950, 0) }).Output :=
  ⟨(generateReport_read_count { FastqReadCount := 950, Primary := (950, 0) }).1
      (by decide) (by decide),
    (generateReport_read_count { FastqReadCount := 1000, Primary := (950, 0) }).2.1
      (by decide) (by decide),
    (generateReport_read_count { Primary := (950, 0) }).2.2.1 (by decide),
    ((generateReport_read_count { Primary := (950, 0) }).2.2.2 rfl).1⟩

/-! ## Fields of the record after one line -/

theorem pairOf_assign (c c2 : Category) (f : Flagstat) (v : Int × Int) (p : F64) :
    pairOf c2 (assign c f v p) = if c2 = c then v else pairOf c2 f := by
  cases c <;> cases c2 <;> rfl

theorem pctOf_assign (c c2 : Category) (f : Flagstat) (v : Int × Int) (p : F64) :
    pctOf c2 (assign c f v p) = if c2 = c ∧ hasPercent c = true then some p else pctOf c2 f := by
  cases c <;> cases c2 <;> rfl

theorem pairOf_stored (c c2 : Category) (f : Flagstat) (line : Str) (v : Int × Int) (p : F64) :
    pairOf c2 (stored c f line v p) = if c2 = c then v else pairOf c2 f := by
  cases c <;> cases c2 <;> rfl

theorem pctOf_stored (c c2 : Category) (f : Flagstat) (line : Str) (v : Int × Int) (p : F64) :
    pctOf c2 (stored c f line v p) =
      if c2 = c ∧ hasPercent c = true then some p else pctOf c2 f := by
  cases c <;> cases c2 <;> rfl

theorem stored_FastqReadCount (c : Category) (f : Flagstat) (line : Str) (v : Int × Int)
    (p : F64) : (stored c f line v p).FastqReadCount = f.FastqReadCount := by
  cases c <;> rfl

theorem stored_Output (c : Category) (f : Flagstat) (line : Str) (v : Int × Int) (p : F64) :
    (stored c f line v p).Output = f.Output := by
  cases c <;> rfl

/-- A parse without error under the pattern of `c` returns the values of the two captured
digit runs, which are not negative. -/
theorem parse_ok_counts (c : Category) (line : Str) (v : Int × Int) (p : F64)
    (h : parseFlagstatLine line (patterns c) = (v, p, none)) :
    ∃ ms, FindStringSubmatch (patterns c) line = some ms ∧
      v = ((decVal (ms.getD 1 []) : Int), (decVal (ms.getD 2 []) : Int)) := by
  cases hm : FindStringSubmatch (patterns c) line with
  | none => rw [parse_noMatch line _ hm] at h; cases h
  | some ms =>
    refine ⟨ms, rfl, ?_⟩
    obtain ⟨full, d1, d2, tc, rfl, hd1, hd2, -, -⟩ := FindStringSubmatch_shape c line ms hm
    rw [parse_of_submatch line _ full d1 d2 tc hm hd1 hd2] at h
    simp only [List.getD_cons_succ, List.getD_cons_zero]
    split at h
    · cases h
    · split at h
      · cases h
      · split at h
        · cases h; rfl
        · split at h
          · cases h; rfl
          · split at h
            · cases h
            · cases h; rfl

theorem parse_ok_nonneg (c : Category) (line : Str) (v : Int × Int) (p : F64)
    (h : parseFlagstatLine line (patterns c) = (v, p, none)) : 0 ≤ v.1 ∧ 0 ≤ v.2 := by
  obtain ⟨ms, -, rfl⟩ := parse_ok_counts c line v p h
  exact ⟨Int.ofNat_nonneg _, Int.ofNat_nonneg _⟩

/-! ## Every pass of the loop body that goes on -/

theorem loopBody_next (fuel : Nat) (tok : Str × Option ScanError) (f g : Flagstat)
    (ws ws2 : List Str) (h : loopBody fuel tok f ws = .next g ws2) :
    ∃ c v p, catOf tok = some c ∧ tok.2 = none ∧
      parseFlagstatLine (TrimSpace tok.1) (patterns c) = (v, p, none) ∧
      g = stored c f (TrimSpace tok.1) v p ∧ ws2 = ws := by
  cases fuel with
  | zero => simp [loopBody, switchTry2] at h
  | succ n =>
    cases hc : firstCase (TrimSpace tok.1) with
    | none => rw [loopBody_unmatched (n + 1) f ws tok hc] at h; cases h
    | some c =>
      have hm := (firstCase_eq_some_iff _ c).mp hc
      obtain ⟨text, err⟩ := tok
      simp only at hc hm
      simp only [loopBody, switchTry2_of_match n _ _ ws c hm] at h
      generalize hr : parseFlagstatLine (TrimSpace text) (patterns c) = r at h
      obtain ⟨v, p, e⟩ := r
      cases e with
      | some e => simp at h
      | none =>
        cases err with
        | some e => simp at h
        | none =>
          simp only [Step.next.injEq] at h
          exact ⟨c, v, p, hc, rfl, hr, by rw [← h.1]; rfl, h.2.symm⟩

/-- A property of the record that every stored line keeps holds for the returned record. -/
theorem scanLoop_invariant (P : Flagstat → Prop)
    (hstep : ∀ c f line v p, P f → parseFlagstatLine line (patterns c) = (v, p, none) →
      P (stored c f line v p))
    (fuel : Nat) (tokens : List (Str × Option ScanError)) (f g : Flagstat) (ws ws2 : List Str)
    (e : Option ScanError) (h : scanLoop fuel tokens f ws = .returned g e ws2) (hf : P f) :
    P g := by
  induction tokens generalizing f ws with
  | nil =>
    simp only [scanLoop, Outcome.returned.injEq] at h
    rw [← h.1]; exact hf
  | cons tok rest ih =>
    simp only [scanLoop] at h
    cases hb : loopBody fuel tok f ws with
    | stop o =>
      rw [hb] at h
      simp only at h
      cases fuel with
      | zero => simp [loopBody, switchTry2] at hb; rw [← hb] at h; cases h
      | succ n =>
        exfalso
        obtain ⟨text, err⟩ := tok
        simp only [loopBody] at hb
        split at hb
        · cases hb; cases h
        · cases hb; cases h
        · split at hb
          · cases hb; cases h
          · cases hb
    | next f2 w2 =>
      rw [hb] at h
      obtain ⟨c, v, p, -, -, hp, rfl, -⟩ := loopBody_next fuel tok f f2 ws w2 hb
      exact ih _ _ h (hstep c f _ v p hf hp)

/-! ## C14: one line writes the fields of its category only -/

/-- C14: a pass of the loop body over a recognised line of category `c` stores the counts
that `parseFlagstatLine` returns for the line, which are the values of its two digit runs,
and its percentage when `c` carries one; the count pairs and percentages of the fifteen
other categories, `FastqReadCount` and `Output` stay as they were, `Input` grows by the
line, and `pppmp` is computed anew. -/
theorem loopBody_frame (fuel : Nat) (tok : Str × Option ScanError) (f : Flagstat)
    (ws : List Str) (c : Category) (herr : tok.2 = none)
    (hm : MatchString (patterns c) (TrimSpace tok.1) = true)
    (hp : (parsed c tok).2.2 = none) :
    ∃ g, loopBody (fuel + 1) tok f ws = .next g ws ∧
      pairOf c g = (parsed c tok).1 ∧
      (∃ ms, FindStringSubmatch (patterns c) (TrimSpace tok.1) = some ms ∧
        pairOf c g = ((decVal (ms.getD 1 []) : Int), (decVal (ms.getD 2 []) : Int))) ∧
      (hasPercent c = true → pctOf c g = some (parsed c tok).2.1) ∧
      (∀ c2, c2 ≠ c → pairOf c2 g = pairOf c2 f ∧ pctOf c2 g = pctOf c2 f) ∧
      (hasPercent c = false → pctOf c g = pctOf c f) ∧
      g.FastqReadCount = f.FastqReadCount ∧ g.Output = f.Output ∧
      g.Input = f.Input ++ (TrimSpace tok.1 ++ ['\n']) ∧ g.pppmp = pppmpOf g := by
  obtain ⟨text, err⟩ := tok
  simp only at herr hm
  subst herr
  have hparse : parseFlagstatLine (TrimSpace text) (patterns c) =
      ((parsed c (text, none)).1, (parsed c (text, none)).2.1, none) := by
    rw [← hp]; rfl
  refine ⟨_, loopBody_of_parse fuel f ws text c _ _ hm hparse, ?_, ?_, ?_, ?_, ?_,
    stored_FastqReadCount _ _ _ _ _, stored_Output _ _ _ _ _, stored_Input _ _ _ _ _,
    stored_pppmp _ _ _ _ _⟩
  · rw [pairOf_stored, if_pos rfl]
  · obtain ⟨ms, hms, hv⟩ := parse_ok_counts c _ _ _ hparse
    exact ⟨ms, hms, by rw [pairOf_stored, if_pos rfl]; exact hv⟩
  · intro hc
    rw [pctOf_stored, if_pos ⟨rfl, hc⟩]
  · intro c2 hne
    rw [pairOf_stored, if_neg hne, pctOf_stored, if_neg (fun h => hne h.1)]
    exact ⟨rfl, rfl⟩
  · intro hc
    rw [pctOf_stored, if_neg (fun h => by rw [hc] at h; exact absurd h.2 (by decide))]

set_option maxRecDepth 100000 in
/-- Instance of C14 at the line `900 + 3 mapped (90.00% : N/A)` and a record that holds
other counts already. -/
theorem loopBody_frame_witness :
    MatchString (patterns .mapped) (TrimSpace "900 + 3 mapped (90.00% : N/A)".toList) = true ∧
    (parsed .mapped ("900 + 3 mapped (90.00% : N/A)".toList, none)).2.2 = none ∧
    ∃ g, loopBody 1 ("900 + 3 mapped (90.00% : N/A)".toList, none)
        { Primary := (950, 0), PrimaryMappedPercent := F64.ofInt 1, FastqReadCount := 7 } [] =
        .next g [] ∧
      g.Mapped = (900, 3) ∧ g.MappedPercent = .fin false 6333186975989760 (-46) ∧
      g.Primary = (950, 0) ∧ g.PrimaryMappedPercent = F64.ofInt 1 ∧ g.FastqReadCount = 7 := by
  obtain ⟨g, hg, h1, -, h2, h3, -, h4, -, -, -⟩ :=
    loopBody_frame 0 ("900 + 3 mapped (90.00% : N/A)".toList, none)
      { Primary := (950, 0), PrimaryMappedPercent := F64.ofInt 1, FastqReadCount := 7 } []
      .mapped rfl (by decide) (by decide)
  refine ⟨by decide, by decide, g, hg, ?_, ?_, ?_, ?_, h4⟩
  · exact h1.trans (by decide)
  · have := h2 rfl
    simp only [pctOf, Option.some.injEq] at this
    exact this.trans (by decide)
  · exact (h3 .primary (by decide)).1
  · have := (h3 .primaryMapped (by decide)).2
    simpa [pctOf] using this

/-! ## C16: the counts are not negative -/

/-- C16: whenever `scanFlagstat` returns a record, both components of each of the sixteen
count pairs of that record are at least `0`. -/
theorem scanFlagstat_counts_nonneg (fuel : Nat) (scanner : Scanner) (g : Flagstat)
    (e : Option ScanError) (ws : List Str)
    (h : scanFlagstat fuel scanner = .returned g e ws) (c : Category) :
    0 ≤ (pairOf c g).1 ∧ 0 ≤ (pairOf c g).2 := by
  have hinv := scanLoop_invariant (fun f => ∀ c, 0 ≤ (pairOf c f).1 ∧ 0 ≤ (pairOf c f).2)
    (fun c0 f line v p hf hp c2 => by
      rw [pairOf_stored]
      split
      · exact parse_ok_nonneg c0 line v p hp
      · exact hf c2)
    fuel scanner.tokens {} g [] ws e h (fun c2 => by cases c2 <;> decide)
  exact hinv c

set_option maxRecDepth 100000 in
set_option exponentiation.threshold 2000 in
/-- Instance of C16 at the nine-line end-to-end input. -/
theorem scanFlagstat_counts_nonneg_witness :
    ∃ g, scanFlagstat 1 endToEndInput = .returned g none [] ∧
      pairOf .properlyPaired g = (800, 0) ∧
      0 ≤ (pairOf .properlyPaired g).1 ∧ 0 ≤ (pairOf .properlyPaired g).2 :=
  ⟨_, rfl, by decide, scanFlagstat_counts_nonneg 1 endToEndInput _ none [] rfl .properlyPaired⟩

/-! ## C18: the expected read count never reaches the record -/

theorem report_text_no_read_count (f : Flagstat) (h0 : f.FastqReadCount = 0) :
    ¬ "all reads accounted for".toList <:+: (generateReport f).Output ∧
    ¬ "Read count mismatch".toList <:+: (generateReport f).Output := by
  have hout : (generateReport f).Output =
      "Report\n".toList ++ (qcText f ++ (mappedText f ++ (unmappedText f ++ svText f))) := by
    rw [generateReport_Output]
    simp [readCountText, h0]
  rw [hout]
  exact ⟨not_infix_of_clean 'l' 'l' _ _ (by decide)
      (clean_report 'l' 'l' (by decide) f (Or.inl ⟨rfl, rfl⟩)),
    not_infix_of_clean 's' 'm' _ _ (by decide)
      (clean_report 's' 'm' (by decide) f (Or.inr ⟨rfl, rfl⟩))⟩

/-- C18: the record that `scanFlagstat` returns has `FastqReadCount = 0` for every input;
the run of `parseflagstat` does not depend on the value of the flag `fastq read count`; and
the text that it prints in text mode holds neither `all reads accounted for` nor
`Read count mismatch`. -/
theorem parseFlagstat_ignores_read_count :
    (∀ (fuel : Nat) (scanner : Scanner) (g : Flagstat) (e : Option ScanError) (ws : List Str),
      scanFlagstat fuel scanner = .returned g e ws → g.FastqReadCount = 0) ∧
    (∀ (encString : Str → Str) (encFloat : F64 → Str) (fuel : Nat) (jsonOutput : Bool)
      (fastqReadCount : Int) (scanner : Scanner),
      parseFlagstat encString encFloat fuel jsonOutput fastqReadCount scanner =
        parseFlagstat encString encFloat fuel jsonOutput 0 scanner) ∧
    (∀ (encString : Str → Str) (encFloat : F64 → Str) (fuel : Nat) (fastqReadCount : Int)
      (scanner : Scanner) (text : Str) (ws : List Str),
      parseFlagstat encString encFloat fuel false fastqReadCount scanner = .printed text ws →
      ¬ "all reads accounted for".toList <:+: text ∧ ¬ "Read count mismatch".toList <:+: text) := by
  have hzero : ∀ (fuel : Nat) (scanner : Scanner) (g : Flagstat) (e : Option ScanError)
      (ws : List Str), scanFlagstat fuel scanner = .returned g e ws → g.FastqReadCount = 0 :=
    fun fuel scanner g e ws h =>
      scanLoop_invariant (fun f => f.FastqReadCount = 0)
        (fun c0 f line v p hf _ => (stored_FastqReadCount c0 f line v p).trans hf)
        fuel scanner.tokens {} g [] ws e h rfl
  refine ⟨hzero, fun _ _ _ _ _ _ => rfl, ?_⟩
  intro encString encFloat fuel n scanner text ws h
  simp only [parseFlagstat] at h
  cases hs : scanFlagstat fuel scanner with
  | outOfFuel => rw [hs] at h; cases h
  | exited r w => rw [hs] at h; cases h
  | returned g e w =>
    rw [hs] at h
    simp only [report, Bool.not_false, if_true] at h
    cases e with
    | some e => cases h
    | none =>
      simp only [RunResult.printed.injEq] at h
      rw [← h.1]
      exact report_text_no_read_count g (hzero fuel scanner g none w hs)

set_option maxRecDepth 100000 in
set_option exponentiation.threshold 2000 in
/-- Instance of C18: with the flag at `950` and the input `950 + 0 primary` the printed
report has no sentence about the read count. -/
theorem parseFlagstat_ignores_read_count_witness :
    ∃ text, parseFlagstat id fmtF2 1 false 950 ⟨[("950 + 0 primary".toList, none)], none⟩ =
        .printed text [] ∧
      ¬ "all reads accounted for".toList <:+: text ∧ ¬ "Read count mismatch".toList <:+: text :=
  ⟨_, rfl, parseFlagstat_ignores_read_count.2.2 id fmtF2 1 950
    ⟨[("950 + 0 primary".toList, none)], none⟩ _ [] rfl⟩

/-! ## C19: a percentage that is not a number -/

theorem firstCase_countLine_none (a b : Nat) (rest : Str) (hr : NoDigitAhead rest)
    (h : ∀ c, matchToks (tailOf c) rest = none) : firstCase (countLine a b rest) = none := by
  rw [firstCase_eq_none_iff]
  intro c
  rw [MatchString, patterns_eq, matchToks_append, countLine,
    matchToks_head _ _ rest (fmtNat_isDigits a) (fmtNat_isDigits b) hr]
  simp [h c]

/-- The labelled switch is one evaluation of it, followed by the jump in the default case. -/
theorem switchTry2_succ (fuel : Nat) (f : Flagstat) (line : Str) (ws : List Str) :
    switchTry2 (fuel + 1) f line ws =
      match switchOnce f line ws with
      | .inl r => some r
      | .inr ws2 => switchTry2 fuel f line ws2 := by
  simp only [switchTry2, switchOnce]
  cases firstCase line <;> rfl

theorem takesDefault_of_none (line : Str) (h : firstCase line = none) : TakesDefault line :=
  ⟨(firstCase_eq_none_iff line).mp h, h, fun f ws => by simp only [switchOnce, h],
    fun fuel f ws => by simp only [switchTry2, h]⟩

theorem matchToks_pct_inv (l v : Str) (x : List Str × Str)
    (h : matchToks [.lit l, .pct, .lit "%".toList] (l ++ v) = some x) : PercentAhead v := by
  have hp : l.isPrefixOf (l ++ v) = true :=
    List.isPrefixOf_iff_prefix.mpr (List.prefix_append _ _)
  simp only [matchToks, hp, if_true, List.drop_left] at h
  split at h
  · rename_i r hr
    split at h
    · cases h
    · rename_i hne
      simp only [Bool.or_eq_true, not_or] at hne
      split at h
      · rename_i hpc
        refine ⟨v.takeWhile isDigit, r.takeWhile isDigit, (r.dropWhile isDigit).drop 1,
          takeWhile_isDigits v (by simpa using hne.1), takeWhile_isDigits r (by simpa using hne.2),
          ?_⟩
        have h1 := lit_prefix_drop "%".toList _ hpc
        have h2 : r = r.takeWhile isDigit ++ '%' :: (r.dropWhile isDigit).drop 1 := by
          conv_lhs => rw [← List.takeWhile_append_dropWhile isDigit r, h1]
          rfl
        conv_lhs => rw [← List.takeWhile_append_dropWhile isDigit v, hr, h2]
      · cases h
  · cases h

theorem tailOf_percent (c : Category) (hc : hasPercent c = true) :
    tailOf c = [.lit (descOf c), .pct, .lit "%".toList] := by
  cases c <;> first | rfl | exact absurd hc (by decide)

theorem endsText_percent (c : Category) (hc : hasPercent c = true) : endsText c = false := by
  cases c <;> first | rfl | exact absurd hc (by decide)

theorem descOf_noDigitAhead (c : Category) (v : Str) : NoDigitAhead (descOf c ++ v) := by
  cases c <;> exact noDigitAhead_space _

/-- After the description of a percentage category no other pattern can match. -/
theorem tail_other_none (c0 c : Category) (v : Str) (hc0 : hasPercent c0 = true)
    (hne : c ≠ c0) : matchToks (tailOf c) (descOf c0 ++ v) = none := by
  cases hm : matchToks (tailOf c) (descOf c0 ++ v) with
  | none => rfl
  | some x =>
    exfalso
    have hsome : (matchToks (tailOf c) (descOf c0 ++ v)).isSome = true := by rw [hm]; rfl
    have hp1 := tail_desc_starts c _ hsome
    have hp0 : descOf c0 <+: descOf c0 ++ v := List.prefix_append _ _
    rcases List.prefix_or_prefix_of_prefix hp1 hp0 with hp | hp
    · obtain ⟨he, hlen⟩ := desc_overlap c c0 hne (List.isPrefixOf_iff_prefix.mpr hp)
      have hs := tail_endsText c _ he hsome
      rw [hs] at hp0
      exact hlen (Nat.le_antisymm hp0.length_le hp.length_le)
    · obtain ⟨he, -⟩ := desc_overlap c0 c (fun h => hne h.symm)
        (List.isPrefixOf_iff_prefix.mpr hp)
      rw [endsText_percent c0 hc0] at he
      cases he

theorem percent_line_unrecognised (a b : Nat) (c0 : Category) (v : Str)
    (hc0 : hasPercent c0 = true) (hv : ¬ PercentAhead v) :
    firstCase (countLine a b (descOf c0 ++ v)) = none := by
  apply firstCase_countLine_none a b _ (descOf_noDigitAhead c0 v)
  intro c
  by_cases hc : c = c0
  · subst hc
    cases hm : matchToks (tailOf c) (descOf c ++ v) with
    | none => rfl
    | some x =>
      rw [tailOf_percent c hc0] at hm
      exact absurd (matchToks_pct_inv _ v x hm) hv
  · exact tail_other_none c0 c v hc0 hc

theorem percent_line_recognised (a b : Nat) (c0 : Category) (v : Str)
    (hc0 : hasPercent c0 = true) (hv : PercentAhead v) :
    MatchString (patterns c0) (countLine a b (descOf c0 ++ v)) = true := by
  obtain ⟨ip, fp, t, hi, hf, rfl⟩ := hv
  rw [MatchString, patterns_eq, matchToks_append, countLine,
    matchToks_head _ _ _ (fmtNat_isDigits a) (fmtNat_isDigits b) (descOf_noDigitAhead c0 _),
    tailOf_percent c0 hc0]
  simp only [Option.some_bind]
  rw [matchToks_percent (descOf c0) ip fp t hi hf]
  rfl

set_option maxRecDepth 100000 in
/-- C19: for the four percentage categories and all counts `a` and `b`, a line whose text
after the opening parenthesis does not go on with digits, a point, digits and `%` matches
none of the sixteen patterns, and the switch takes its default branch on it: one
evaluation of the switch adds the warning and the switch is entered again; a line that
does go on so matches the pattern of its category. In
particular the lines `a + b mapped (N/A : N/A)`, `a + b primary mapped (N/A : N/A)`,
`a + b properly paired (N/A : N/A)` and `a + b singletons (N/A : N/A)` take the default
branch. -/
theorem na_percentage_unrecognised (a b : Nat) :
    (∀ (c0 : Category) (v : Str), hasPercent c0 = true → ¬ PercentAhead v →
      TakesDefault (countLine a b (descOf c0 ++ v))) ∧
    (∀ (c0 : Category) (v : Str), hasPercent c0 = true → PercentAhead v →
      MatchString (patterns c0) (countLine a b (descOf c0 ++ v)) = true) ∧
    (∀ c0, hasPercent c0 = true ↔
      c0 = .mapped ∨ c0 = .primaryMapped ∨ c0 = .properlyPaired ∨ c0 = .singletons) ∧
    (∀ (fuel : Nat) (f : Flagstat) (line : Str) (ws : List Str),
      switchTry2 (fuel + 1) f line ws =
        match switchOnce f line ws with
        | .inl r => some r
        | .inr ws2 => switchTry2 fuel f line ws2) ∧
    (descOf .mapped = " mapped (".toList ∧ descOf .primaryMapped = " primary mapped (".toList ∧
      descOf .properlyPaired = " properly paired (".toList ∧
      descOf .singletons = " singletons (".toList) ∧
    TakesDefault (countLine a b " mapped (N/A : N/A)".toList) ∧
    TakesDefault (countLine a b " primary mapped (N/A : N/A)".toList) ∧
    TakesDefault (countLine a b " properly paired (N/A : N/A)".toList) ∧
    TakesDefault (countLine a b " singletons (N/A : N/A)".toList) := by
  refine ⟨fun c0 v hc0 hv => takesDefault_of_none _ (percent_line_unrecognised a b c0 v hc0 hv),
    percent_line_recognised a b, fun c0 => by cases c0 <;> decide, switchTry2_succ,
    ⟨rfl, rfl, rfl, rfl⟩, ?_, ?_, ?_, ?_⟩ <;>
    exact takesDefault_of_none _ (firstCase_countLine_none a b _ (noDigitAhead_space _)
      (fun c => by cases c <;> decide))

set_option maxRecDepth 100000 in
/-- Instance of C19 at the lines `7 + 2 mapped (90% : N/A)` and `7 + 2 singletons (90.%`,
which take the default branch, and `7 + 2 mapped (90.00% : N/A)`, which is matched. -/
theorem na_percentage_unrecognised_witness :
    ¬ PercentAhead "90% : N/A)".toList ∧ ¬ PercentAhead "90.%".toList ∧
    PercentAhead "90.00% : N/A)".toList ∧
    TakesDefault "7 + 2 mapped (90% : N/A)".toList ∧
    TakesDefault "7 + 2 singletons (90.%".toList ∧
    MatchString (patterns .mapped) "7 + 2 mapped (90.00% : N/A)".toList = true := by
  have h1 : ¬ PercentAhead "90% : N/A)".toList := by
    rintro ⟨ip, fp, t, hi, -, h⟩
    obtain ⟨-, -, hd⟩ := isDigits_head_ne ip hi (fp ++ '%' :: t) '.' (by decide)
    rw [← h] at hd
    have : "90% : N/A)".toList.dropWhile isDigit = "% : N/A)".toList := by decide
    rw [this] at hd
    cases hd
  have h2 : ¬ PercentAhead "90.%".toList := by
    rintro ⟨ip, fp, t, hi, hf, h⟩
    obtain ⟨-, -, hd⟩ := isDigits_head_ne ip hi (fp ++ '%' :: t) '.' (by decide)
    rw [← h] at hd
    have : "90.%".toList.dropWhile isDigit = ".%".toList := by decide
    rw [this] at hd
    have hfp : fp ++ '%' :: t = "%".toList := by
      have := List.cons.inj hd
      exact this.2.symm
    obtain ⟨hne, hall⟩ := hf
    cases fp with
    | nil => exact hne rfl
    | cons x xs =>
      have hx : x = '%' := by
        have := (List.cons.inj hfp).1
        exact this
      have := hall x (List.mem_cons_self _ _)
      rw [hx] at this
      exact absurd this (by decide)
  have h3 : PercentAhead "90.00% : N/A)".toList :=
    ⟨"90".toList, "00".toList, " : N/A)".toList, ⟨by decide, by decide⟩, ⟨by decide, by decide⟩,
      rfl⟩
  exact ⟨h1, h2, h3, (na_percentage_unrecognised 7 2).1 .mapped _ rfl h1,
    (na_percentage_unrecognised 7 2).1 .singletons _ rfl h2,
    (na_percentage_unrecognised 7 2).2.1 .mapped _ rfl h3⟩

/-! ## C11: the renderer writes `Output` only -/

theorem generateReport_frame (f : Flagstat) :
    generateReport f = { f with Output := (generateReport f).Output } := rfl

/-- C11: in both modes, a record that `report` hands back differs from the record it was
given in `Output` at most. The text mode always hands a record back; the structured mode
does so whenever the four parsed percentages are finite, and otherwise the process ends
and the record is not written at all. -/
theorem report_frame (encString : Str → Str) (encFloat : F64 → Str) (f : Flagstat)
    (jsonOutput : Bool) :
    (∀ g, report encString encFloat f jsonOutput = .ok g → g = { f with Output := g.Output }) ∧
    report encString encFloat f false = .ok (generateReport f) ∧
    (f.MappedPercent.isFinite = true → f.PrimaryMappedPercent.isFinite = true →
      f.ProperlyPairedPercent.isFinite = true → f.SingletonsPercent.isFinite = true →
      ∃ g, report encString encFloat f true = .ok g) := by
  refine ⟨?_, rfl, ?_⟩
  · intro g hg
    cases jsonOutput with
    | false =>
      simp only [report, Bool.not_false, if_true, Except.ok.injEq] at hg
      rw [← hg]
      exact generateReport_frame f
    | true =>
      simp only [report, Bool.not_true, Bool.false_eq_true, if_false] at hg
      split at hg
      · cases hg
      · simp only [Except.ok.injEq] at hg
        rw [← hg]
  · intro h1 h2 h3 h4
    simp [report, jsonMarshal, marshalFields, unsupportedValue, h1, h2, h3, h4]

set_option maxRecDepth 100000 in
set_option exponentiation.threshold 2000 in
/-- Instance of C11 at a record with counts, a percentage and a derived value, in both
modes; `id` and `fmtF2` stand in for the two encoders of the library. -/
theorem report_frame_witness :
    (∃ g, report id fmtF2 { Primary := (950, 0), MappedPercent := F64.ofInt 90, pppmp := .nan }
        true = .ok g ∧
      g = { Primary := (950, 0), MappedPercent := F64.ofInt 90, pppmp := .nan,
            Output := g.Output }) ∧
    (∃ g, report id fmtF2 { Primary := (950, 0), MappedPercent := F64.ofInt 90, pppmp := .nan }
        false = .ok g ∧
      g = { Primary := (950, 0), MappedPercent := F64.ofInt 90, pppmp := .nan,
            Output := g.Output }) := by
  constructor
  · obtain ⟨g, hg⟩ := (report_frame id fmtF2
      { Primary := (950, 0), MappedPercent := F64.ofInt 90, pppmp := .nan } true).2.2
      (by decide) (by decide) (by decide) (by decide)
    exact ⟨g, hg, (report_frame id fmtF2 _ true).1 g hg⟩
  · exact ⟨_, rfl, (report_frame id fmtF2
      { Primary := (950, 0), MappedPercent := F64.ofInt 90, pppmp := .nan } false).1 _ rfl⟩

/-! ## C12: the counts that the report uses -/

set_option maxRecDepth 100000 in
set_option exponentiation.threshold 2000 in
/-- C12: the report does use counts of reads that failed QC. Two records with
`FastqReadCount = 0` that differ in `Secondary[1]` only, or in `PairedInSeq[1]` only, or in
`PrimaryMapped[1]` only, get different reports: the report adds `Secondary[1]` to the
secondary alignments and takes both fail counts into the unmapped reads. -/
theorem generateReport_uses_failed_counts :
    (generateReport { Secondary := (0, 1) }).Output ≠ (generateReport { Secondary := (0, 0) }).Output ∧
    (generateReport { PairedInSeq := (0, 1) }).Output ≠
      (generateReport { PairedInSeq := (0, 0) }).Output ∧
    (generateReport { PrimaryMapped := (0, 1) }).Output ≠
      (generateReport { PrimaryMapped := (0, 0) }).Output ∧
    "1 additional secondary alignments".toList <:+: (generateReport { Secondary := (0, 1) }).Output ∧
    "0 additional secondary alignments".toList <:+: (generateReport { Secondary := (0, 0) }).Output ∧
    "Only passing used for counts in this report.".toList <:+:
      (generateReport { Secondary := (0, 1) }).Output := by
  decide

/-! ## C13: the structured output -/

theorem ParseFloat_ok_finite (t : Str) (p : F64) (h : ParseFloat t = .ok p) :
    p.isFinite = true := by
  unfold ParseFloat at h
  dsimp only at h
  split at h
  · split at h
    · cases h
    · split at h
      · cases h
      · rename_i hv
        cases h
        cases hq : roundQ false (decVal (List.takeWhile isDigit t ++ _)) (10 ^ _) with
        | nan => exact absurd hq (roundQ_ne_nan _ _ _)
        | inf s => exact absurd hq (hv s)
        | fin s m e => rfl
  · cases h

/-- A parse without error returns a finite percentage. -/
theorem parse_ok_finite (line : Str) (re : Regexp) (v : Int × Int) (p : F64)
    (h : parseFlagstatLine line re = (v, p, none)) : p.isFinite = true := by
  unfold parseFlagstatLine at h
  split at h
  · cases h
  · split at h
    · cases h
    · split at h
      · cases h
      · split at h
        · split at h
          · cases h
          · rename_i q hq
            cases h
            exact ParseFloat_ok_finite _ _ hq
        · cases h
          rfl

theorem stored_finitePercents (c : Category) (f : Flagstat) (line : Str) (v : Int × Int)
    (p : F64) (hf : FinitePercents f) (hp : p.isFinite = true) :
    FinitePercents (stored c f line v p) := by
  obtain ⟨h1, h2, h3, h4⟩ := hf
  cases c <;> exact ⟨by first | exact h1 | exact hp, by first | exact h2 | exact hp,
    by first | exact h3 | exact hp, by first | exact h4 | exact hp⟩

/-- The records that `scanFlagstat` returns hold finite percentages only. -/
theorem scanFlagstat_finitePercents (fuel : Nat) (scanner : Scanner) (g : Flagstat)
    (e : Option ScanError) (ws : List Str) (h : scanFlagstat fuel scanner = .returned g e ws) :
    FinitePercents g :=
  scanLoop_invariant FinitePercents
    (fun c f line v p hf hp => stored_finitePercents c f line v p hf (parse_ok_finite _ _ v p hp))
    fuel scanner.tokens {} g [] ws e h ⟨rfl, rfl, rfl, rfl⟩

/-- The encoder meets an unsupported value exactly when a parsed percentage is not finite. -/
theorem unsupportedValue_eq_none_iff (f : Flagstat) :
    unsupportedValue (marshalFields f) = none ↔ FinitePercents f := by
  unfold FinitePercents
  simp only [marshalFields, unsupportedValue]
  cases f.MappedPercent.isFinite <;> cases f.PrimaryMappedPercent.isFinite <;>
    cases f.ProperlyPairedPercent.isFinite <;> cases f.SingletonsPercent.isFinite <;> simp

/-- C13: in structured mode two records that differ in `pppmp` only end alike. Every record
that `scanFlagstat` returns holds finite parsed percentages, and for every record with
finite parsed percentages, whatever its `pppmp`, `report` stores in `Output` the same
document: the object of the exported fields, which has no key `pppmp` and carries under
their keys every count pair, the four parsed percentages, `fastq_read_count` and the input
text. For a record with a parsed percentage that is not finite, which no scan returns,
`json.Marshal` fails and the process ends, again whatever the `pppmp`. -/
theorem report_json_document (encString : Str → Str) (encFloat : F64 → Str) (f : Flagstat)
    (x : F64) :
    (report encString encFloat { f with pppmp := x } true).map (fun g => g.Output) =
      (report encString encFloat f true).map (fun g => g.Output) ∧
    (FinitePercents f →
      report encString encFloat f true =
        .ok { f with Output := '{' :: (renderMembers encString encFloat (marshalFields f) ++ ['}']) } ∧
      report encString encFloat { f with pppmp := x } true =
        .ok { f with pppmp := x,
                     Output := '{' :: (renderMembers encString encFloat (marshalFields f) ++ ['}']) }) ∧
    (marshalFields f).map Prod.fst = jsonKeys ∧ "pppmp".toList ∉ jsonKeys ∧ jsonKeys.Nodup ∧
    (∀ c, (pairKey c, JValue.pair (pairOf c f)) ∈ marshalFields f) ∧
    (∀ c p, pctOf c f = some p → (pctKey c, JValue.float p) ∈ marshalFields f) ∧
    ("fastq_read_count".toList, JValue.int f.FastqReadCount) ∈ marshalFields f ∧
    ("input".toList, JValue.str f.Input) ∈ marshalFields f ∧
    (∀ (fuel : Nat) (scanner : Scanner) (e : Option ScanError) (ws : List Str),
      scanFlagstat fuel scanner = .returned f e ws →
      FinitePercents f ∧
      report encString encFloat f true =
        .ok { f with Output := '{' :: (renderMembers encString encFloat (marshalFields f) ++ ['}']) } ∧
      report encString encFloat { f with pppmp := x } true =
        .ok { f with pppmp := x,
                     Output := '{' :: (renderMembers encString encFloat (marshalFields f) ++ ['}']) }) ∧
    (¬ FinitePercents f →
      ∃ k, k ∈ [pctKey .mapped, pctKey .primaryMapped, pctKey .properlyPaired, pctKey .singletons] ∧
        report encString encFloat f true = .error (.marshal k) ∧
        report encString encFloat { f with pppmp := x } true = .error (.marshal k)) := by
  have hm : jsonMarshal encString encFloat { f with pppmp := x } =
      jsonMarshal encString encFloat f := rfl
  have hfin : FinitePercents f →
      report encString encFloat f true =
        .ok { f with Output := '{' :: (renderMembers encString encFloat (marshalFields f) ++ ['}']) } ∧
      report encString encFloat { f with pppmp := x } true =
        .ok { f with pppmp := x,
                     Output := '{' :: (renderMembers encString encFloat (marshalFields f) ++ ['}']) } := by
    rintro ⟨h1, h2, h3, h4⟩
    constructor <;>
      simp [report, jsonMarshal, marshalFields, unsupportedValue, h1, h2, h3, h4]
  refine ⟨?_, hfin, rfl, by decide, by decide, ?_, ?_, ?_, ?_, ?_, ?_⟩
  · simp only [report, Bool.not_true, Bool.false_eq_true, if_false, hm]
    cases jsonMarshal encString encFloat f <;> rfl
  · intro c
    cases c <;> simp [marshalFields, pairKey, pairOf]
  · intro c p hp
    cases c <;> simp [pctOf] at hp <;> subst hp <;> simp [marshalFields, pctKey, pairKey]
  · simp [marshalFields]
  · simp [marshalFields]
  · intro fuel scanner e ws hs
    have hf := scanFlagstat_finitePercents fuel scanner f e ws hs
    exact ⟨hf, hfin hf⟩
  · intro hnf
    have hbad : ∃ k, k ∈ [pctKey .mapped, pctKey .primaryMapped, pctKey .properlyPaired,
        pctKey .singletons] ∧ unsupportedValue (marshalFields f) = some k := by
      unfold FinitePercents at hnf
      simp only [marshalFields, unsupportedValue]
      cases h1 : f.MappedPercent.isFinite
      · exact ⟨pctKey .mapped, by simp, by simp [pctKey, pairKey]⟩
      · cases h2 : f.PrimaryMappedPercent.isFinite
        · exact ⟨pctKey .primaryMapped, by simp, by simp [pctKey, pairKey]⟩
        · cases h3 : f.ProperlyPairedPercent.isFinite
          · exact ⟨pctKey .properlyPaired, by simp, by simp [pctKey, pairKey]⟩
          · cases h4 : f.SingletonsPercent.isFinite
            · exact ⟨pctKey .singletons, by simp, by simp [pctKey, pairKey]⟩
            · exact absurd ⟨h1, h2, h3, h4⟩ hnf
    obtain ⟨k, hk, hu⟩ := hbad
    have hu2 : unsupportedValue (marshalFields { f with pppmp := x }) = some k := hu
    exact ⟨k, hk, by simp [report, jsonMarshal, hu], by simp [report, jsonMarshal, hu2]⟩

set_option maxRecDepth 100000 in
set_option exponentiation.threshold 2000 in
/-- Instance of C13 at the record that `scanFlagstat` returns for the line
`900 + 0 primary mapped (90.00% : N/A)` (with another `pppmp`), and at a record whose
`SingletonsPercent` is not-a-number; `id` and `fmtF2` stand in for the two encoders of the
library. -/
theorem report_json_document_witness :
    ∃ g, scanFlagstat 1 ⟨[("900 + 0 primary mapped (90.00% : N/A)".toList, none)], none⟩ =
        .returned g none [] ∧ FinitePercents g ∧ g.PrimaryMapped = (900, 0) ∧
      (∃ doc, report id fmtF2 g true = .ok { g with Output := doc } ∧
        report id fmtF2 { g with pppmp := .nan } true =
          .ok { g with pppmp := .nan, Output := doc }) ∧
      ¬ FinitePercents { SingletonsPercent := .nan } ∧
      (∃ k, report id fmtF2 { SingletonsPercent := .nan } true = .error (.marshal k) ∧
        report id fmtF2 { SingletonsPercent := .nan, pppmp := F64.ofInt 1 } true =
          .error (.marshal k)) := by
  obtain ⟨g, hg, hpm⟩ : ∃ g, scanFlagstat 1
      ⟨[("900 + 0 primary mapped (90.00% : N/A)".toList, none)], none⟩ = .returned g none [] ∧
      g.PrimaryMapped = (900, 0) := ⟨_, rfl, by decide⟩
  have h := (report_json_document id fmtF2 g .nan).2.2.2.2.2.2.2.2.2.1 1 _ none [] hg
  obtain ⟨k, -, hk1, hk2⟩ := (report_json_document id fmtF2 { SingletonsPercent := .nan }
    (F64.ofInt 1)).2.2.2.2.2.2.2.2.2.2 (by decide)
  exact ⟨g, hg, h.1, hpm, ⟨_, h.2.1, h.2.2⟩, by decide, k, hk1, hk2⟩

/-! ## The last line of each category -/

theorem lastOf_nil (c : Category) : lastOf c [] = none := rfl

theorem lastOf_cons (c : Category) (tok : Str × Option ScanError)
    (rest : List (Str × Option ScanError)) :
    lastOf c (tok :: rest) =
      match lastOf c rest with
      | some t => some t
      | none => if catOf tok = some c then some tok else none := by
  unfold lastOf
  rw [List.filter_cons]
  by_cases h : catOf tok = some c
  · have hb : (catOf tok == some c) = true := by simpa using h
    rw [if_pos hb, List.getLast?_cons, if_pos h]
    cases (List.filter (fun tok => catOf tok == some c) rest).getLast? <;> rfl
  · have hb : ¬ (catOf tok == some c) = true := by simpa using h
    rw [if_neg hb, if_neg h]
    cases (List.filter (fun tok => catOf tok == some c) rest).getLast? <;> rfl

theorem lastOf_mem (c : Category) (tokens : List (Str × Option ScanError))
    (tok : Str × Option ScanError) (h : lastOf c tokens = some tok) :
    tok ∈ tokens ∧ catOf tok = some c := by
  unfold lastOf at h
  have hm := List.mem_of_getLast?_eq_some h
  rw [List.mem_filter] at hm
  exact ⟨hm.1, by simpa using hm.2⟩

theorem lastOf_isSome_of_mem (c : Category) (tokens : List (Str × Option ScanError))
    (tok : Str × Option ScanError) (hm : tok ∈ tokens) (hc : catOf tok = some c) :
    lastOf c tokens ≠ none := by
  unfold lastOf
  rw [Ne, List.getLast?_eq_none_iff]
  intro h
  have : tok ∈ tokens.filter fun t => catOf t == some c := by
    rw [List.mem_filter]; exact ⟨hm, by simpa using hc⟩
  rw [h] at this
  cases this

/-- The record that the loop returns on recognised lines, field by field: a category holds
what its last line parsed to, or what it held before when it has no line. -/
theorem scanLoop_fields (fuel : Nat) (tokens : List (Str × Option ScanError))
    (h : ∀ tok ∈ tokens, Recognised tok) (f : Flagstat) (ws : List Str) :
    ∃ g, scanLoop (fuel + 1) tokens f ws = .returned g none ws ∧
      (∀ c, pairOf c g =
        match lastOf c tokens with
        | some tok => (parsed c tok).1
        | none => pairOf c f) ∧
      (∀ c, pctOf c g =
        match lastOf c tokens with
        | some tok => if hasPercent c = true then some (parsed c tok).2.1 else none
        | none => pctOf c f) ∧
      g.FastqReadCount = f.FastqReadCount ∧ g.Output = f.Output ∧
      (tokens ≠ [] → g.pppmp = pppmpOf g) ∧ (tokens = [] → g = f) := by
  induction tokens generalizing f with
  | nil =>
    exact ⟨f, rfl, fun c => rfl, fun c => rfl, rfl, rfl, fun h => absurd rfl h, fun _ => rfl⟩
  | cons tok rest ih =>
    obtain ⟨c0, v, p, hm, hp, hb⟩ := loopBody_recognised fuel f ws tok
      (h tok (List.mem_cons_self _ _))
    have hcat : catOf tok = some c0 := (firstCase_eq_some_iff _ c0).mpr hm
    obtain ⟨g, hg, hpair, hpct, hfq, hout, hpp, hnil⟩ :=
      ih (fun t ht => h t (List.mem_cons_of_mem _ ht)) (stored c0 f (TrimSpace tok.1) v p)
    refine ⟨g, ?_, ?_, ?_, ?_, ?_, ?_, fun hc => by cases hc⟩
    · simp only [scanLoop, hb]; exact hg
    · intro c
      rw [hpair c, lastOf_cons]
      cases hl : lastOf c rest with
      | some t => rfl
      | none =>
        simp only [pairOf_stored, hcat, Option.some.injEq]
        by_cases hc : c = c0
        · subst hc
          simp only [if_true, parsed, hp]
        · rw [if_neg hc, if_neg (fun h => hc h.symm)]
    · intro c
      rw [hpct c, lastOf_cons]
      cases hl : lastOf c rest with
      | some t => rfl
      | none =>
        simp only [pctOf_stored, hcat, Option.some.injEq]
        by_cases hc : c = c0
        · subst hc
          simp only [true_and, if_true, parsed, hp]
          by_cases hpc : hasPercent c = true
          · rw [if_pos hpc, if_pos hpc]
          · rw [if_neg hpc]
            cases c <;> first | rfl | exact absurd rfl hpc
        · rw [if_neg (fun h => hc h.1), if_neg (fun h => hc h.symm)]
    · rw [hfq, stored_FastqReadCount]
    · rw [hout, stored_Output]
    · intro _
      cases rest with
      | nil => rw [hnil rfl]; exact stored_pppmp _ _ _ _ _
      | cons t ts => exact hpp (by simp)

theorem agree_of_fields (g g2 : Flagstat) (hpair : ∀ c, pairOf c g = pairOf c g2)
    (hpct : ∀ c, pctOf c g = pctOf c g2) (hfq : g.FastqReadCount = g2.FastqReadCount)
    (hout : g.Output = g2.Output) (hpp : g.pppmp = g2.pppmp) : AgreeButInput g g2 := by
  have a1 := hpair .total
  have a2 := hpair .primary
  have a3 := hpair .secondary
  have a4 := hpair .supplementary
  have a5 := hpair .duplicates
  have a6 := hpair .primaryDup
  have a7 := hpair .mapped
  have a8 := hpair .primaryMapped
  have a9 := hpair .pairedInSeq
  have a10 := hpair .read1
  have a11 := hpair .read2
  have a12 := hpair .properlyPaired
  have a13 := hpair .withMateMapped
  have a14 := hpair .singletons
  have a15 := hpair .mateDiffChr
  have a16 := hpair .mateDiffChrMapQ5
  have b1 := hpct .mapped
  have b2 := hpct .primaryMapped
  have b3 := hpct .properlyPaired
  have b4 := hpct .singletons
  simp only [pairOf] at a1 a2 a3 a4 a5 a6 a7 a8
  simp only [pairOf] at a9 a10 a11 a12 a13 a14 a15 a16
  simp only [pctOf, Option.some.injEq] at b1 b2 b3 b4
  unfold AgreeButInput
  cases g
  cases g2
  simp only at *
  simp only [Flagstat.mk.injEq]
  exact ⟨trivial, hout, hfq, a1, a2, a3, a4, a5, a6, a7, b1, a8, b2, a9, a10, a11, a12, b3, hpp, a13,
    a14, b4, a15, a16⟩

/-- Two inputs of recognised lines with the same last line for every category give records
that agree on every field but `Input`. -/
theorem scan_agree_of_lastOf (fuel : Nat) (tokens tokens2 : List (Str × Option ScanError))
    (h : ∀ tok ∈ tokens, Recognised tok) (h2 : ∀ tok ∈ tokens2, Recognised tok)
    (hl : ∀ c, lastOf c tokens2 = lastOf c tokens) (f : Flagstat) (ws : List Str) :
    ∃ g g2, scanLoop (fuel + 1) tokens f ws = .returned g none ws ∧
      scanLoop (fuel + 1) tokens2 f ws = .returned g2 none ws ∧ AgreeButInput g g2 := by
  obtain ⟨g, hg, hpair, hpct, hfq, hout, hpp, hnil⟩ := scanLoop_fields fuel tokens h f ws
  obtain ⟨g2, hg2, hpair2, hpct2, hfq2, hout2, hpp2, hnil2⟩ := scanLoop_fields fuel tokens2 h2 f ws
  have hpairs : ∀ c, pairOf c g = pairOf c g2 := fun c => by rw [hpair c, hpair2 c, hl c]
  refine ⟨g, g2, hg, hg2, agree_of_fields g g2 hpairs
    (fun c => by rw [hpct c, hpct2 c, hl c]) (hfq.trans hfq2.symm) (hout.trans hout2.symm) ?_⟩
  have hne : ∀ (a b : List (Str × Option ScanError)), (∀ tok ∈ a, Recognised tok) →
      (∀ c, lastOf c a = lastOf c b) → a ≠ [] → b ≠ [] := by
    intro a b ha hab hane hb
    subst hb
    cases a with
    | nil => exact hane rfl
    | cons t ts =>
      obtain ⟨-, c, hm, -⟩ := ha t (List.mem_cons_self _ _)
      exact lastOf_isSome_of_mem c (t :: ts) t (List.mem_cons_self _ _)
        ((firstCase_eq_some_iff _ c).mpr hm) (hab c)
  by_cases he : tokens = []
  · have he2 : tokens2 = [] := by
      by_contra hc
      exact hne tokens2 tokens h2 hl hc he
    rw [hnil he, hnil2 he2]
  · have he2 : tokens2 ≠ [] := hne tokens tokens2 h (fun c => (hl c).symm) he
    rw [hpp he, hpp2 he2]
    simp only [pppmpOf]
    have e1 := hpairs .properlyPaired
    have e2 := hpairs .primaryMapped
    simp only [pairOf] at e1 e2
    rw [e1, e2]

/-! ## C15: the last line of a category wins -/

/-- C15: on an input of recognised lines `scanFlagstat` returns a record that holds, for
every category with a line, the counts (and the percentage, where the category carries one)
of the last line of that category; the earlier lines leave no trace outside `Input`: any
other input of recognised lines with the same last line for every category gives a record
that agrees on every field but `Input`. -/
theorem scanFlagstat_last_match_wins (fuel : Nat) (tokens : List (Str × Option ScanError))
    (finalErr : Option ScanError) (h : ∀ tok ∈ tokens, Recognised tok) :
    ∃ g, scanFlagstat (fuel + 1) ⟨tokens, finalErr⟩ = .returned g none [] ∧
      (∀ c tok, lastOf c tokens = some tok →
        pairOf c g = (parsed c tok).1 ∧
        (hasPercent c = true → pctOf c g = some (parsed c tok).2.1)) ∧
      (∀ (tokens2 : List (Str × Option ScanError)) (finalErr2 : Option ScanError),
        (∀ tok ∈ tokens2, Recognised tok) → (∀ c, lastOf c tokens2 = lastOf c tokens) →
        ∃ g2, scanFlagstat (fuel + 1) ⟨tokens2, finalErr2⟩ = .returned g2 none [] ∧
          AgreeButInput g g2) := by
  obtain ⟨g, hg, hpair, hpct, -, -, -, -⟩ := scanLoop_fields fuel tokens h {} []
  refine ⟨g, hg, ?_, ?_⟩
  · intro c tok hl
    have h1 := hpair c
    have h2 := hpct c
    rw [hl] at h1 h2
    simp only at h1 h2
    exact ⟨h1, fun hc => by rw [h2, if_pos hc]⟩
  · intro tokens2 finalErr2 h2 hl
    obtain ⟨g1, g2, hg1, hg2, hag⟩ := scan_agree_of_lastOf fuel tokens tokens2 h h2 hl {} []
    have : g1 = g := by
      have := hg1.symm.trans hg
      simpa using this
    subst this
    exact ⟨g2, hg2, hag⟩

set_option maxRecDepth 100000 in
set_option exponentiation.threshold 2000 in
/-- Instance of C15 at an input with two `primary` lines and two `mapped` lines. -/
theorem scanFlagstat_last_match_wins_witness :
    (∀ tok ∈ [("1 + 0 primary".toList, (none : Option ScanError)),
        ("7 + 0 mapped (70.00% : N/A)".toList, none), ("2 + 5 primary".toList, none),
        ("9 + 0 mapped (90.00% : N/A)".toList, none)], Recognised tok) ∧
    ∃ g, scanFlagstat 1 ⟨[("1 + 0 primary".toList, none),
        ("7 + 0 mapped (70.00% : N/A)".toList, none), ("2 + 5 primary".toList, none),
        ("9 + 0 mapped (90.00% : N/A)".toList, none)], none⟩ = .returned g none [] ∧
      g.Primary = (2, 5) ∧ g.Mapped = (9, 0) ∧
      g.MappedPercent = .fin false 6333186975989760 (-46) := by
  have h : ∀ tok ∈ [("1 + 0 primary".toList, (none : Option ScanError)),
      ("7 + 0 mapped (70.00% : N/A)".toList, none), ("2 + 5 primary".toList, none),
      ("9 + 0 mapped (90.00% : N/A)".toList, none)], Recognised tok := by
    intro tok ht
    simp only [List.mem_cons, List.mem_singleton, List.not_mem_nil, or_false] at ht
    rcases ht with rfl | rfl | rfl | rfl
    · exact ⟨rfl, .primary, by decide, by decide⟩
    · exact ⟨rfl, .mapped, by decide, by decide⟩
    · exact ⟨rfl, .primary, by decide, by decide⟩
    · exact ⟨rfl, .mapped, by decide, by decide⟩
  obtain ⟨g, hg, hlast, -⟩ := scanFlagstat_last_match_wins 0 _ none h
  refine ⟨h, g, hg, ?_, ?_, ?_⟩
  · exact (hlast .primary ("2 + 5 primary".toList, none) (by decide)).1.trans (by decide)
  · exact (hlast .mapped ("9 + 0 mapped (90.00% : N/A)".toList, none) (by decide)).1.trans
      (by decide)
  · have := (hlast .mapped ("9 + 0 mapped (90.00% : N/A)".toList, none) (by decide)).2 rfl
    simp only [pctOf, Option.some.injEq] at this
    exact this.trans (by decide)

/-! ## C17: the order of the lines -/

theorem filter_length_le_one (c : Category) (tokens : List (Str × Option ScanError))
    (hn : (tokens.map catOf).Nodup) :
    (tokens.filter fun tok => catOf tok == some c).length ≤ 1 := by
  induction tokens with
  | nil => simp
  | cons t ts ih =>
    rw [List.map_cons, List.nodup_cons] at hn
    rw [List.filter_cons]
    split
    · rename_i hc
      have hc2 : catOf t = some c := by simpa using hc
      have hnil : (ts.filter fun tok => catOf tok == some c) = [] := by
        rw [List.filter_eq_nil_iff]
        intro x hx hxc
        have hxc2 : catOf x = some c := by simpa using hxc
        exact hn.1 (List.mem_map.mpr ⟨x, hx, hxc2.trans hc2.symm⟩)
      simp [hnil]
    · exact ih hn.2

theorem lastOf_perm (c : Category) (tokens tokens2 : List (Str × Option ScanError))
    (hn : (tokens.map catOf).Nodup) (hperm : tokens2.Perm tokens) :
    lastOf c tokens2 = lastOf c tokens := by
  have hp := hperm.filter (fun tok => catOf tok == some c)
  have hlen := filter_length_le_one c tokens hn
  unfold lastOf
  cases hf : tokens.filter (fun tok => catOf tok == some c) with
  | nil => rw [hf] at hp; rw [List.perm_nil.mp hp]
  | cons a l =>
    rw [hf] at hlen hp
    have hl : l = [] := by
      cases l with
      | nil => rfl
      | cons b m => simp at hlen
    subst hl
    rw [List.perm_singleton.mp hp]

/-- C17: for a list of recognised lines in which no category occurs twice, `scanFlagstat`
returns for the list and for each of its permutations records that agree on every field
but `Input`: all count pairs, all parsed percentages and `pppmp` are the same. -/
theorem scanFlagstat_order_independent (fuel : Nat)
    (tokens tokens2 : List (Str × Option ScanError))
    (h : ∀ tok ∈ tokens, Recognised tok) (hnodup : (tokens.map catOf).Nodup)
    (hperm : tokens2.Perm tokens) :
    ∃ g g2, scanFlagstat (fuel + 1) ⟨tokens, none⟩ = .returned g none [] ∧
      scanFlagstat (fuel + 1) ⟨tokens2, none⟩ = .returned g2 none [] ∧
      AgreeButInput g g2 ∧ (∀ c, pairOf c g = pairOf c g2) ∧ (∀ c, pctOf c g = pctOf c g2) ∧
      g.pppmp = g2.pppmp :=  by
  obtain ⟨g, g2, hg, hg2, hag⟩ := scan_agree_of_lastOf fuel tokens tokens2 h
    (fun tok ht => h tok (hperm.mem_iff.mp ht))
    (fun c => lastOf_perm c tokens tokens2 hnodup hperm) {} []
  have hfield : ∀ {α : Type} (proj : Flagstat → α),
      proj { g with Input := [] } = proj { g2 with Input := [] } := by
    intro α proj
    unfold AgreeButInput at hag
    rw [hag]
  refine ⟨g, g2, hg, hg2, hag, fun c => ?_, fun c => ?_, hfield (fun x => x.pppmp)⟩
  · have := hfield (pairOf c)
    cases c <;> exact this
  · have := hfield (pctOf c)
    cases c <;> exact this

set_option maxRecDepth 100000 in
set_option exponentiation.threshold 2000 in
/-- Instance of C17 at three lines and the same lines in reverse order. -/
theorem scanFlagstat_order_independent_witness :
    (∀ tok ∈ [("900 + 0 primary mapped (90.00% : N/A)".toList, (none : Option ScanError)),
        ("800 + 0 properly paired (80.00% : N/A)".toList, none), ("1 + 1 read1".toList, none)],
      Recognised tok) ∧
    ([("900 + 0 primary mapped (90.00% : N/A)".toList, (none : Option ScanError)),
        ("800 + 0 properly paired (80.00% : N/A)".toList, none),
        ("1 + 1 read1".toList, none)].map catOf).Nodup ∧
    ∃ g g2, scanFlagstat 1 ⟨[("900 + 0 primary mapped (90.00% : N/A)".toList, none),
        ("800 + 0 properly paired (80.00% : N/A)".toList, none), ("1 + 1 read1".toList, none)],
        none⟩ = .returned g none [] ∧
      scanFlagstat 1 ⟨[("1 + 1 read1".toList, none),
        ("800 + 0 properly paired (80.00% : N/A)".toList, none),
        ("900 + 0 primary mapped (90.00% : N/A)".toList, none)], none⟩ = .returned g2 none [] ∧
      AgreeButInput g g2 ∧ g.pppmp = g2.pppmp := by
  have h : ∀ tok ∈ [("900 + 0 primary mapped (90.00% : N/A)".toList, (none : Option ScanError)),
      ("800 + 0 properly paired (80.00% : N/A)".toList, none), ("1 + 1 read1".toList, none)],
      Recognised tok := by
    intro tok ht
    simp only [List.mem_cons, List.mem_singleton, List.not_mem_nil, or_false] at ht
    rcases ht with rfl | rfl | rfl
    · exact ⟨rfl, .primaryMapped, by decide, by decide⟩
    · exact ⟨rfl, .properlyPaired, by decide, by decide⟩
    · exact ⟨rfl, .read1, by decide, by decide⟩
  have hn : ([("900 + 0 primary mapped (90.00% : N/A)".toList, (none : Option ScanError)),
      ("800 + 0 properly paired (80.00% : N/A)".toList, none),
      ("1 + 1 read1".toList, none)].map catOf).Nodup := by decide
  obtain ⟨g, g2, hg, hg2, hag, -, -, hpp⟩ := scanFlagstat_order_independent 0 _
    [("1 + 1 read1".toList, none), ("800 + 0 properly paired (80.00% : N/A)".toList, none),
      ("900 + 0 primary mapped (90.00% : N/A)".toList, none)] h hn
    (List.reverse_perm [("900 + 0 primary mapped (90.00% : N/A)".toList, none),
      ("800 + 0 properly paired (80.00% : N/A)".toList, none), ("1 + 1 read1".toList, none)])
  exact ⟨h, hn, g, g2, hg, hg2, hag, hpp⟩

end SaTherapist
